import Mathlib

/-!
Verification development for the pokemon-jp-summariser repository.

The article-to-team extraction pipeline of the repository lives in
`src/react-app/server.js` (Express server: `validateAndFixEVSpread`,
`parseGeminiResponse`, the in-memory translation cache and the
`/api/summarize` endpoint) and in
`src/react-app/src/services/geminiService.ts` (client-side service:
`summarizeArticle` retry loop, `isRetryableError`, `parseDetailedTeamMembers`,
`parseEVSpread`).

JavaScript strings are modelled as `List Char` (wrapped in `String` at the
interfaces).  The JavaScript regular expressions used by the code are small
and fixed, so each one is embedded as a dedicated recognizer whose semantics
(leftmost match, greedy/lazy quantifiers with backtracking, word boundaries,
the JS definitions of `\s`, `\w`, `\d` and `.`) are worked out for that
particular pattern and recorded in the doc comment of the recognizer.
-/

/-- JS `\w` word-character class: `[A-Za-z0-9_]` (ASCII only). -/
def isWordChar (c : Char) : Bool := c.isAlphanum || c = '_'

/-- JS `\s` whitespace class: the JS whitespace set. -/
def isJsWhitespace (c : Char) : Bool :=
  c = ' ' || c = '\t' || c = '\n' || c = '\r' || c = '\x0b' || c = '\x0c' ||
  c = '\u00A0' || c = '\u1680' || ('\u2000' ≤ c && c ≤ '\u200A') ||
  c = '\u2028' || c = '\u2029' || c = '\u202F' || c = '\u205F' ||
  c = '\u3000' || c = '\uFEFF'

/-- JS `.` (no `s` flag): any character except `\n`, `\r`, U+2028, U+2029. -/
def isDotChar (c : Char) : Bool := !(c = '\n' || c = '\r' || c = '\u2028' || c = '\u2029')

/-- Numeric value of a decimal digit character. -/
def digitVal (c : Char) : Nat := c.toNat - '0'.toNat

/-- Decimal value of a list of digit characters (the value `parseInt` gives a
pure digit run). -/
def runVal (l : List Char) : Nat := l.foldl (fun a c => 10 * a + digitVal c) 0

/-- `leadsWith pat l` holds when `pat` is an initial segment of `l`
(literal match of a pattern at the current position). -/
def leadsWith : List Char → List Char → Bool
  | [], _ => true
  | _ :: _, [] => false
  | p :: ps, c :: cs => p = c && leadsWith ps cs

/-- `containsSeq pat l`: `pat` occurs contiguously somewhere in `l`
(JS `String.prototype.includes`). -/
def containsSeq (pat : List Char) : List Char → Bool
  | [] => leadsWith pat []
  | c :: cs => leadsWith pat (c :: cs) || containsSeq pat cs

/-- JS `String.prototype.trim`: strip leading and trailing `\s` characters. -/
def jsTrim (l : List Char) : List Char :=
  ((l.dropWhile isJsWhitespace).reverse.dropWhile isJsWhitespace).reverse

/-- JS `String.prototype.split` with a single-character literal separator. -/
def splitOnChar (sep : Char) : List Char → List (List Char)
  | [] => [[]]
  | c :: cs =>
    if c = sep then [] :: splitOnChar sep cs
    else
      match splitOnChar sep cs with
      | t :: ts => (c :: t) :: ts
      | [] => [[c]]

/-- JS `split(/\s+/)`: split on maximal nonempty runs of whitespace.  A
leading or trailing run produces an empty field, exactly as in JavaScript.
`acc = some a` means a field is being accumulated (in reverse); `acc = none`
means the scan is inside a separator run whose field has been emitted. -/
def splitWsAux (acc : Option (List Char)) : List Char → List String
  | [] => [String.mk (acc.getD []).reverse]
  | c :: cs =>
    match acc with
    | some a =>
      if isJsWhitespace c then String.mk a.reverse :: splitWsAux none cs
      else splitWsAux (some (c :: a)) cs
    | none =>
      if isJsWhitespace c then splitWsAux none cs
      else splitWsAux (some [c]) cs

/-- JS `validated.split(/\s+/)`. -/
def splitWs (l : List Char) : List String := splitWsAux (some []) l

/-! ## EVSpreadValidator (`validateAndFixEVSpread`, server.js lines 672-695)

The first check is `statPattern = /\b(1[0-9][0-9]|2[0-9][0-9]|3[0-9][0-9])\b/`:
three consecutive digit characters, the first being `1`, `2` or `3`, with a
word boundary on both sides.  Because the group is made of word characters,
the boundaries say exactly that the character before (if any) and the
character after (if any) are not word characters. -/

/-- One anchored attempt of `statPattern` at the current position, where
`prev` is the character immediately before the current position (`none` at
the start of the string). -/
def finalStatHere (prev : Option Char) : List Char → Bool
  | d1 :: d2 :: d3 :: rest =>
    (d1 = '1' || d1 = '2' || d1 = '3') && d2.isDigit && d3.isDigit &&
    (match prev with | none => true | some p => !isWordChar p) &&
    (match rest with | [] => true | r :: _ => !isWordChar r)
  | _ => false

/-- `statPattern.test`: scan every position left to right. -/
def hasFinalStatAux (prev : Option Char) : List Char → Bool
  | [] => false
  | c :: cs => finalStatHere prev (c :: cs) || hasFinalStatAux (some c) cs

/-- `statPattern.test(evSpread)`. -/
def hasFinalStat (l : List Char) : Bool := hasFinalStatAux none l

/-- `evSpread.match(/\b(\d+)\b/g)`: all maximal digit runs that are not
adjacent to a letter, digit or underscore on either side.  A run adjacent to
a word character yields no match at all for that run (greedy `\d+`
backtracking cannot restore the inner word boundary), so such runs are
skipped entirely.  `run` carries the digit characters of the run currently
being accumulated in reverse order; `prevWord` says whether the previous
character was a word character. -/
def evRunsAux (run : Option (List Char)) (prevWord : Bool) : List Char → List (List Char)
  | [] => match run with | some r => [r.reverse] | none => []
  | c :: cs =>
    match run with
    | some r =>
      if c.isDigit then evRunsAux (some (c :: r)) true cs
      else if isWordChar c then evRunsAux none true cs
      else r.reverse :: evRunsAux none false cs
    | none =>
      if c.isDigit && !prevWord then evRunsAux (some [c]) true cs
      else evRunsAux none (isWordChar c) cs

/-- The digit runs matched by `/\b(\d+)\b/g`. -/
def evRuns (l : List Char) : List (List Char) := evRunsAux none false l

/-- The numeric values `parseInt` gives the matched runs. -/
def evTokens (l : List Char) : List Nat := (evRuns l).map runVal

/-- server.js `validateAndFixEVSpread`.  The JS `num < 0` test can never fire
(the matched runs are pure digit sequences, so `parseInt` yields a
nonnegative integer) and is therefore dropped from the embedded guard. -/
def validateAndFixEVSpread (evSpread : String) : String :=
  if evSpread = "" || evSpread = "Not specified in the article" then
    "EVs not specified in the article"
  else if hasFinalStat evSpread.data then
    "EVs not specified in the article (final stat values detected)"
  else if (evTokens evSpread.data).any (fun num => num > 252 || num % 4 != 0) then
    "EVs not specified in the article (invalid EV values detected)"
  else evSpread

example : validateAndFixEVSpread "252 0 4 252 0 0" =
    "EVs not specified in the article (final stat values detected)" := by decide

example : validateAndFixEVSpread "96 0 4 92 0 0" = "96 0 4 92 0 0" := by decide

example : validateAndFixEVSpread "9 0 4 92 0 0" =
    "EVs not specified in the article (invalid EV values detected)" := by decide

example : validateAndFixEVSpread "Not specified" = "Not specified" := by decide

example : validateAndFixEVSpread "" = "EVs not specified in the article" := by decide

/-! ## ResponseParser, server side (`parseGeminiResponse`, server.js 697-835)

Per-member fields are extracted with regexes of the shape
`/Label:\s*(.+?)(?:\n|$)/`.  Worked-out semantics of one anchored attempt of
`\s*(.+?)(?:\n|$)` at a suffix `u`: the greedy `\s*` consumes `k` whitespace
characters, longest `k` first; for a fixed `k`, the lazy `(.+?)` must take at
least one `.`-character and then grow until `(?:\n|$)` holds, so an attempt
at a position succeeds exactly when the position starts with a `.`-character
and the maximal run of `.`-characters from it is followed by `\n` or the end
of the string (a following `\r`, U+2028 or U+2029 makes the attempt fail,
since `.` cannot consume it and `(?:\n|$)` cannot match it); the capture is
that maximal run.  On failure the engine retries at the next occurrence of
the literal label. -/

/-- One attempt of the lazy tail `(.+?)(?:\n|$)` at the current position. -/
def tryLazy (v : List Char) : Option (List Char) :=
  match v with
  | [] => none
  | c :: _ =>
    if isDotChar c then
      match v.dropWhile isDotChar with
      | [] => some (v.takeWhile isDotChar)
      | r :: _ => if r = '\n' then some (v.takeWhile isDotChar) else none
    else none

/-- `\s*(.+?)(?:\n|$)` anchored at `u`: greedy `\s*` with backtracking,
longest whitespace prefix first. -/
def matchFieldTail : List Char → Option (List Char)
  | [] => none
  | c :: cs =>
    if isJsWhitespace c then
      match matchFieldTail cs with
      | some cap => some cap
      | none => tryLazy (c :: cs)
    else tryLazy (c :: cs)

/-- `section.match(/Label:\s*(.+?)(?:\n|$)/)`: leftmost occurrence of the
literal label whose tail attempt succeeds; the engine moves to the next
occurrence when the tail fails. -/
def findFieldAux (label : List Char) : List Char → Option (List Char)
  | [] => none
  | c :: cs =>
    if leadsWith label (c :: cs) then
      match matchFieldTail ((c :: cs).drop label.length) with
      | some cap => some cap
      | none => findFieldAux label cs
    else findFieldAux label cs

/-- `lines[0].match(/\[([^\]]+)\]/)`: leftmost `[`, then one or more
non-`]` characters (greedy, must be nonempty), then `]`.  On failure the
engine advances one position. -/
def matchBracketName : List Char → Option (List Char)
  | [] => none
  | c :: cs =>
    if c = '[' then
      match cs.dropWhile (fun x => x ≠ ']'), cs.takeWhile (fun x => x ≠ ']') with
      | ']' :: _, x :: xs => some (x :: xs)
      | _, _ => matchBracketName cs
    else matchBracketName cs

/-- First occurrence of a literal label; returns the suffix after it. -/
def findLabelSuffix (label : List Char) : List Char → Option (List Char)
  | [] => none
  | c :: cs =>
    if leadsWith label (c :: cs) then some ((c :: cs).drop label.length)
    else findLabelSuffix label cs

/-- Lazy `[\s\S]*?` capture: everything up to the first position where one of
the stop strings starts (or the end of the list). -/
def takeUntilMarkers (stops : List (List Char)) : List Char → List Char
  | [] => []
  | c :: cs =>
    if stops.any (fun st => leadsWith st (c :: cs)) then []
    else c :: takeUntilMarkers stops cs

/-- server.js `/EV Explanation:\s*([\s\S]*?)(?:\*\*Pokémon|\*\*Conclusion|$)/`.
The tail always succeeds (the `$` alternative matches at the end), so the
first label occurrence wins; the greedy `\s*` always keeps its maximal
extent, because no stop string starts with a whitespace character; the lazy
capture then runs to the first stop occurrence or the end. -/
def findExplanation (s : List Char) : Option (List Char) :=
  (findLabelSuffix "EV Explanation:".data s).map fun u =>
    takeUntilMarkers ["**Pokémon".data, "**Conclusion".data]
      (u.dropWhile isJsWhitespace)

/-- Hexadecimal digit predicate for `parseInt`'s `0x` form. -/
def isHexDigit (c : Char) : Bool :=
  c.isDigit || ('a' ≤ c && c ≤ 'f') || ('A' ≤ c && c ≤ 'F')

/-- Value of a hexadecimal digit. -/
def hexDigitVal (c : Char) : Nat :=
  if c.isDigit then digitVal c
  else if 'a' ≤ c && c ≤ 'f' then c.toNat - 'a'.toNat + 10
  else c.toNat - 'A'.toNat + 10

/-- JS `parseInt(s)` (radix omitted): skip leading whitespace, optional sign,
then either a `0x`/`0X` hexadecimal literal or a maximal decimal digit
prefix; `none` models `NaN`. -/
def jsParseInt (s : String) : Option Int :=
  let l := s.data.dropWhile isJsWhitespace
  let sign : Int := match l with | '-' :: _ => -1 | _ => 1
  let l' := match l with | '-' :: t => t | '+' :: t => t | _ => l
  match l' with
  | '0' :: 'x' :: t =>
    match t.takeWhile isHexDigit with
    | [] => none
    | d :: ds => some (sign * ((d :: ds).foldl (fun a c => 16 * a + hexDigitVal c) 0))
  | '0' :: 'X' :: t =>
    match t.takeWhile isHexDigit with
    | [] => none
    | d :: ds => some (sign * ((d :: ds).foldl (fun a c => 16 * a + hexDigitVal c) 0))
  | _ =>
    match l'.takeWhile Char.isDigit with
    | [] => none
    | d :: ds => some (sign * (runVal (d :: ds) : Int))

/-- JS `parseInt(x) || 0`: `NaN` (and `0` itself) collapse to `0`. -/
def jsParseIntOr0 (s : String) : Int := (jsParseInt s).getD 0

/-- One slot of the `hp`/`max` display pair in a team record. -/
structure HPBar where
  current : Nat
  hpMax : Nat
deriving DecidableEq

/-- One per-stat line of `team.stats`. -/
structure StatLine where
  base : Nat
  evs : Int
  ivs : Nat
  final : Nat
deriving DecidableEq

/-- The `team.stats` object. -/
structure Stats where
  hp : StatLine
  attack : StatLine
  defense : StatLine
  spAtk : StatLine
  spDef : StatLine
  speed : StatLine
deriving DecidableEq

/-- One entry of `team.moves`. -/
structure Move where
  name : String
  bp : Nat
  checked : Bool
deriving DecidableEq

/-- The team object built by `parseGeminiResponse` for one member section. -/
structure Team where
  pokemon : String
  level : Nat
  hp : HPBar
  status : String
  teraType : String
  types : List String
  item : String
  ability : String
  nature : String
  moves : List Move
  stats : Stats
  bst : Nat
  remainingEvs : Int
  strategy : String
  evSpread : String
deriving DecidableEq

/-- `xMatch ? xMatch[1].trim() : 'Not specified'` for the line fields. -/
def fieldValue (label : String) (s : List Char) : String :=
  match findFieldAux label.data s with
  | some cap => String.mk (jsTrim cap)
  | none => "Not specified"

/-- `movesMatch ? movesMatch[1].split('/').map(move => ({name: move.trim(),
bp: 0, checked: true})) : []`.  Note that server.js does NOT filter out empty
move names. -/
def movesOf (s : List Char) : List Move :=
  match findFieldAux "Moves:".data s with
  | some cap =>
    (splitOnChar '/' cap).map fun mv =>
      { name := String.mk (jsTrim mv), bp := 0, checked := true }
  | none => []

/-- `evExplanationMatch ? evExplanationMatch[1].trim() : 'Not specified'`. -/
def strategyOf (s : List Char) : String :=
  match findExplanation s with
  | some cap => String.mk (jsTrim cap)
  | none => "Not specified"

/-- `const rawEVSpread = evMatch ? evMatch[1].trim() : 'Not specified'`. -/
def rawEVSpreadOf (s : List Char) : String := fieldValue "EV Spread:" s

/-- The conditional block of `parseGeminiResponse` (server.js 758-776) that
overwrites the per-stat EVs and `remainingEvs` when the validated spread is
none of the three sentinels and splits into at least six fields. -/
def applyEvs (validated : String) (t : Team) : Team :=
  if validated ≠ "EVs not specified in the article" ∧
      validated ≠ "EVs not specified in the article (final stat values detected)" ∧
      validated ≠ "EVs not specified in the article (invalid EV values detected)" then
    let evValues := splitWs validated.data
    if 6 ≤ evValues.length then
      let e0 := jsParseIntOr0 (evValues.getD 0 "")
      let e1 := jsParseIntOr0 (evValues.getD 1 "")
      let e2 := jsParseIntOr0 (evValues.getD 2 "")
      let e3 := jsParseIntOr0 (evValues.getD 3 "")
      let e4 := jsParseIntOr0 (evValues.getD 4 "")
      let e5 := jsParseIntOr0 (evValues.getD 5 "")
      { t with
        stats :=
          { hp := { t.stats.hp with evs := e0 }
            attack := { t.stats.attack with evs := e1 }
            defense := { t.stats.defense with evs := e2 }
            spAtk := { t.stats.spAtk with evs := e3 }
            spDef := { t.stats.spDef with evs := e4 }
            speed := { t.stats.speed with evs := e5 } }
        remainingEvs := 508 - (e0 + e1 + e2 + e3 + e4 + e5) }
    else t
  else t

/-- The team object literal of `parseGeminiResponse` (server.js 729-756)
before the EV block: name from the bracketed part of the first line, the
seven labelled fields, and the fixed display defaults. -/
def baseTeam (s : List Char) : Team :=
  { pokemon :=
      match matchBracketName (s.takeWhile (fun c => c ≠ '\n')) with
      | some cap => String.mk (jsTrim cap)
      | none => "Unknown Pokemon"
    level := 50
    hp := { current := 100, hpMax := 150 }
    status := "Healthy"
    teraType := fieldValue "Tera Type:" s
    types := []
    item := fieldValue "Held Item:" s
    ability := fieldValue "Ability:" s
    nature := fieldValue "Nature:" s
    moves := movesOf s
    stats :=
      { hp := { base := 100, evs := 0, ivs := 31, final := 150 }
        attack := { base := 100, evs := 0, ivs := 31, final := 100 }
        defense := { base := 100, evs := 0, ivs := 31, final := 100 }
        spAtk := { base := 100, evs := 0, ivs := 31, final := 100 }
        spDef := { base := 100, evs := 0, ivs := 31, final := 100 }
        speed := { base := 100, evs := 0, ivs := 31, final := 100 } }
    bst := 600
    remainingEvs := 508
    strategy := strategyOf s
    evSpread := validateAndFixEVSpread (rawEVSpreadOf s) }

/-- The body of the member loop of `parseGeminiResponse` for one section
(server.js 709-776): the team literal, then the conditional EV block. -/
def parseTeamSection (s : List Char) : Team :=
  applyEvs (validateAndFixEVSpread (rawEVSpreadOf s)) (baseTeam s)

/-- One attempt of the section marker regex (`pre` then `\d+` then `:`) at
the current position; returns the remainder after the marker.  Greedy `\d+`
with the following `:` forces a maximal digit run followed by a colon. -/
def tryMarker (pre : List Char) (l : List Char) : Option (List Char) :=
  if leadsWith pre l then
    if 1 ≤ ((l.drop pre.length).takeWhile Char.isDigit).length &&
        leadsWith [':'] ((l.drop pre.length).dropWhile Char.isDigit) then
      some (((l.drop pre.length).dropWhile Char.isDigit).drop 1)
    else none
  else none

/-- The remainder returned by `tryMarker` is strictly shorter than the
input (the marker consumes the nonempty digit run and the colon). -/
theorem tryMarker_length {pre l tail : List Char}
    (h : tryMarker pre l = some tail) : tail.length < l.length := by
  unfold tryMarker at h
  split at h
  · split at h
    · rename_i hcond
      simp only [Bool.and_eq_true, decide_eq_true_eq] at hcond
      simp only [Option.some.injEq] at h
      subst h
      have hrest : 1 ≤ ((l.drop pre.length).dropWhile Char.isDigit).length := by
        rcases hr : (l.drop pre.length).dropWhile Char.isDigit with _ | ⟨x, xs⟩
        · rw [hr] at hcond; simp [leadsWith] at hcond
        · simp
      have hsum : ((l.drop pre.length).takeWhile Char.isDigit).length
          + ((l.drop pre.length).dropWhile Char.isDigit).length
          = (l.drop pre.length).length := by
        rw [← List.length_append, List.takeWhile_append_dropWhile]
      have hdrop : (l.drop pre.length).length ≤ l.length := by
        rw [List.length_drop]; omega
      rw [List.length_drop]
      omega
    · exact absurd h (by simp)
  · exact absurd h (by simp)

/-- JS `text.split(/pre\d+:/)`: scan left to right, cut at every
non-overlapping marker occurrence, marker consumed.  The recursion is made
structural on a fuel argument; every step consumes at least one character of
`l` (`tryMarker_length`), so the fuel-exhausted branch is unreachable
whenever the initial fuel is at least `l.length` (see
`splitOnMarkerAux_fuel`). -/
def splitOnMarkerAux (pre : List Char) : Nat → List Char → List Char → List (List Char)
  | _, acc, [] => [acc.reverse]
  | 0, acc, l => [acc.reverse ++ l]
  | fuel + 1, acc, c :: cs =>
    match tryMarker pre (c :: cs) with
    | some rest => acc.reverse :: splitOnMarkerAux pre fuel [] rest
    | none => splitOnMarkerAux pre fuel (c :: acc) cs

/-- JS `text.split(/pre\d+:/)` from the start of the text. -/
def splitOnMarker (pre : List Char) (l : List Char) : List (List Char) :=
  splitOnMarkerAux pre l.length [] l

/-- With enough fuel, the result of `splitOnMarkerAux` does not depend on
the exact fuel value. -/
theorem splitOnMarkerAux_fuel (pre : List Char) :
    ∀ f₁ f₂ acc l, l.length ≤ f₁ → l.length ≤ f₂ →
      splitOnMarkerAux pre f₁ acc l = splitOnMarkerAux pre f₂ acc l := by
  intro f₁
  induction f₁ using Nat.strong_induction_on with
  | _ f₁ ih =>
    intro f₂ acc l h₁ h₂
    match l with
    | [] => cases f₁ <;> cases f₂ <;> rfl
    | c :: cs =>
      match f₁, f₂ with
      | 0, _ => simp at h₁
      | _ + 1, 0 => simp at h₂
      | g₁ + 1, g₂ + 1 =>
        simp only [List.length_cons] at h₁ h₂
        rcases hm : tryMarker pre (c :: cs) with _ | rest
        · simp only [splitOnMarkerAux, hm]
          exact ih g₁ (by omega) g₂ (c :: acc) cs (by omega) (by omega)
        · have hr := tryMarker_length hm
          simp only [List.length_cons] at hr
          simp only [splitOnMarkerAux, hm]
          rw [ih g₁ (by omega) g₂ [] rest (by omega) (by omega)]

/-- `text.split(/\*\*Pokémon \d+:/)` (server.js line 705). -/
def splitPokemonSections (l : List Char) : List (List Char) :=
  splitOnMarker "**Pokémon ".data l

/-- The member loop of `parseGeminiResponse`: `for (let i = 1;
i < pokemonSections.length && i <= 6; i++)`, here running over the sections
after the preamble with `i` the 1-based index. -/
def parseTeamsLoop : Nat → List (List Char) → List Team
  | _, [] => []
  | i, s :: rest =>
    if i ≤ 6 then parseTeamSection s :: parseTeamsLoop (i + 1) rest else []

/-- The `teams` list built by `parseGeminiResponse` (server.js 705-779). -/
def parseGeminiTeams (text : String) : List Team :=
  parseTeamsLoop 1 ((splitPokemonSections text.data).drop 1)

/-! ## ResponseParser, client side (`parseDetailedTeamMembers`,
geminiService.ts 610-664)

The client parser uses regexes of the shape `- Label:\s*([^\n]+)`: after
the label, greedy `\s*` with backtracking, then a greedy nonempty run of
non-`\n` characters.  An attempt at a position succeeds exactly when the
position holds a character other than `\n`; the capture is the maximal
non-`\n` run from there (this run may contain `\r`, unlike the server's
`.`-based capture). -/

/-- One attempt of the greedy tail `([^\n]+)` at the current position. -/
def tryGreedyLine (v : List Char) : Option (List Char) :=
  match v with
  | [] => none
  | c :: _ =>
    if c = '\n' then none else some (v.takeWhile (fun x => x ≠ '\n'))

/-- `\s*([^\n]+)` anchored at `u`: greedy `\s*` with backtracking, longest
whitespace prefix first. -/
def matchFieldTailTs : List Char → Option (List Char)
  | [] => none
  | c :: cs =>
    if isJsWhitespace c then
      match matchFieldTailTs cs with
      | some cap => some cap
      | none => tryGreedyLine (c :: cs)
    else tryGreedyLine (c :: cs)

/-- `section.match` with the pattern `- Label:\s*([^\n]+)`: leftmost label occurrence whose
tail attempt succeeds. -/
def findFieldTsAux (label : List Char) : List Char → Option (List Char)
  | [] => none
  | c :: cs =>
    if leadsWith label (c :: cs) then
      match matchFieldTailTs ((c :: cs).drop label.length) with
      | some cap => some cap
      | none => findFieldTsAux label cs
    else findFieldTsAux label cs

/-- `xMatch ? xMatch[1].trim() : 'Not specified'` for the client fields. -/
def tsFieldValue (label : String) (s : List Char) : String :=
  match findFieldTsAux label.data s with
  | some cap => String.mk (jsTrim cap)
  | none => "Not specified"

/-- geminiService.ts
pattern `- EV Explanation:\s*([\s\S]*?)(?=\n\n|\*\*Pokémon|\n- |$)`: the lookahead
tail always succeeds (the `$` alternative matches at the end), so the first
label occurrence wins; no stop string starts with a character the greedy
`\s*` could not already have consumed when the capture starts (the stops
starting with `\n` cannot occur at the capture start, which holds a
non-whitespace character or is the end), and the lazy capture runs to the
first stop occurrence or the end. -/
def tsExplanationOf (s : List Char) : Option (List Char) :=
  (findLabelSuffix "- EV Explanation:".data s).map fun u =>
    takeUntilMarkers ["\n\n".data, "**Pokémon".data, "\n- ".data]
      (u.dropWhile isJsWhitespace)

/-- The `evs` record produced by `parseEVSpread`. -/
structure TsEvs where
  hp : Nat
  attack : Nat
  defense : Nat
  spAtk : Nat
  spDef : Nat
  speed : Nat
deriving DecidableEq

/-- Nonempty digit run at the current position: its value and the rest. -/
def takeNum (l : List Char) : Option (Nat × List Char) :=
  match l.takeWhile Char.isDigit with
  | [] => none
  | d :: ds => some (runVal (d :: ds), l.dropWhile Char.isDigit)

/-- Nonempty whitespace run at the current position: the rest after it. -/
def takeWsThen (l : List Char) : Option (List Char) :=
  match l.takeWhile isJsWhitespace with
  | [] => none
  | _ :: _ => some (l.dropWhile isJsWhitespace)

/-- `k` further groups of `\s+(\d+)` after the first group. -/
def moreNums : Nat → List Char → Option (List Nat)
  | 0, _ => some []
  | k + 1, l =>
    match takeWsThen l with
    | none => none
    | some l' =>
      match takeNum l' with
      | none => none
      | some (n, r) => (moreNums k r).map (n :: ·)

/-- One anchored attempt of
`/(\d+)\s+(\d+)\s+(\d+)\s+(\d+)\s+(\d+)\s+(\d+)/`: six maximal digit runs
separated by maximal whitespace runs (greedy `\d+` backtracking cannot end a
group before a digit, nor `\s+` before a whitespace character). -/
def sixNumsFrom (l : List Char) : Option (List Nat) :=
  match takeNum l with
  | none => none
  | some (n, r) => (moreNums 5 r).map (n :: ·)

/-- Leftmost match of the six-number pattern: scan every position. -/
def scanSixNums : List Char → Option (List Nat)
  | [] => none
  | c :: cs =>
    match sixNumsFrom (c :: cs) with
    | some r => some r
    | none => scanSixNums cs

/-- geminiService.ts `parseEVSpread` (lines 666-680). -/
def parseEVSpread (evSpread : String) : Option TsEvs :=
  if evSpread = "Not specified" then none
  else
    match scanSixNums evSpread.data with
    | some (a :: b :: c :: d :: e :: f :: _) =>
      some { hp := a, attack := b, defense := c, spAtk := d, spDef := e, speed := f }
    | _ => none

/-- The member record built by `parseDetailedTeamMembers`. -/
structure PokemonTeamMember where
  name : String
  ability : String
  item : String
  teraType : String
  moves : List String
  nature : String
  evs : Option TsEvs
  evExplanation : String
deriving DecidableEq

/-- The body of the member loop of `parseDetailedTeamMembers`
(geminiService.ts 614-661) for the `i`-th section: the first line (trimmed,
with the JS `||` falling back to `Pokemon ${i}` on the empty string), the
labelled fields, moves split on `/`, trimmed and FILTERED to nonempty names,
and the EV spread parsed through `parseEVSpread`. -/
def parseTsSection (i : Nat) (s : List Char) : PokemonTeamMember :=
  let line0 := jsTrim (s.takeWhile (fun c => c ≠ '\n'))
  let name := if line0 = [] then "Pokemon " ++ toString i else String.mk line0
  let moves :=
    match findFieldTsAux "- Moves:".data s with
    | some cap =>
      ((splitOnChar '/' cap).map (fun mv => String.mk (jsTrim mv))).filter
        (fun mv => mv ≠ "")
    | none => []
  let evSpread :=
    match findFieldTsAux "- EV Spread:".data s with
    | some cap => String.mk (jsTrim cap)
    | none => "Not specified"
  let evExplanation :=
    match tsExplanationOf s with
    | some cap => String.mk (jsTrim cap)
    | none => "Not specified"
  { name := name
    ability := tsFieldValue "- Ability:" s
    item := tsFieldValue "- Held Item:" s
    teraType := tsFieldValue "- Tera Type:" s
    moves := moves
    nature := tsFieldValue "- Nature:" s
    evs := parseEVSpread evSpread
    evExplanation := evExplanation }

/-- The member loop of `parseDetailedTeamMembers`: `for (let i = 1;
i < pokemonSections.length && i <= 6; i++)`. -/
def parseDetailedLoop : Nat → List (List Char) → List PokemonTeamMember
  | _, [] => []
  | i, s :: rest =>
    if i ≤ 6 then parseTsSection i s :: parseDetailedLoop (i + 1) rest else []

/-- `summary.split(/Pokémon \d+:/)` (geminiService.ts line 611). -/
def splitTsSections (l : List Char) : List (List Char) :=
  splitOnMarker "Pokémon ".data l

/-- geminiService.ts `parseDetailedTeamMembers` (lines 610-664). -/
def parseDetailedTeamMembers (summary : String) : List PokemonTeamMember :=
  parseDetailedLoop 1 ((splitTsSections summary.data).drop 1)

/-- Map with a 1-based running index, used to state which section each
parsed member comes from. -/
def mapIdxFrom {α β : Type} (f : Nat → α → β) : Nat → List α → List β
  | _, [] => []
  | i, a :: as => f i a :: mapIdxFrom f (i + 1) as

/-! ## ResultCache (server.js 38-40, 483-512)

`translationCache` is a JS `Map` from the md5-hex of the URL to
`{data, timestamp}`.  The map is modelled as an association list with unique
keys in insertion order (`cacheSet` replaces in place, like `Map.set`); the
md5 key derivation is an opaque string function and is passed in as the
`keyFn` parameter, so every statement below holds for the real digest
function in particular.  `Date.now()` values are passed in explicitly as
integers. -/

/-- A `{data, timestamp}` cache entry. -/
structure CacheEntry (α : Type) where
  data : α
  timestamp : Int

/-- In-memory cache state. -/
def CacheMap (α : Type) : Type := List (String × CacheEntry α)

/-- `Map.prototype.get`. -/
def cacheFind {α : Type} (k : String) : CacheMap α → Option (CacheEntry α)
  | [] => none
  | (k', e) :: rest => if k' = k then some e else cacheFind k rest

/-- `Map.prototype.set`: replace in place, else append. -/
def cacheSet {α : Type} (k : String) (e : CacheEntry α) : CacheMap α → CacheMap α
  | [] => [(k, e)]
  | (k', e') :: rest =>
    if k' = k then (k, e) :: rest else (k', e') :: cacheSet k e rest

/-- `Map.prototype.delete`. -/
def cacheDelete {α : Type} (k : String) : CacheMap α → CacheMap α
  | [] => []
  | (k', e') :: rest =>
    if k' = k then rest else (k', e') :: cacheDelete k rest

/-- `const CACHE_DURATION = 24 * 60 * 60 * 1000` (server.js line 40). -/
def CACHE_DURATION : Int := 24 * 60 * 60 * 1000

/-- server.js `getCachedTranslation` (lines 488-503): fresh hit returns the
data; an expired entry is deleted at this lookup and `null` is returned; a
miss returns `null`.  The function returns the pair (result, new cache
state). -/
def getCachedTranslation {α : Type} (keyFn : String → String) (now : Int)
    (cache : CacheMap α) (url : String) : Option α × CacheMap α :=
  match cacheFind (keyFn url) cache with
  | some cached =>
    if now - cached.timestamp < CACHE_DURATION then (some cached.data, cache)
    else (none, cacheDelete (keyFn url) cache)
  | none => (none, cache)

/-- server.js `setCachedTranslation` (lines 505-512). -/
def setCachedTranslation {α : Type} (keyFn : String → String) (now : Int)
    (cache : CacheMap α) (url : String) (data : α) : CacheMap α :=
  cacheSet (keyFn url) { data := data, timestamp := now } cache

/-! ## CompletionClient retry loop (`summarizeArticle` and
`isRetryableError`, geminiService.ts 225-318)

The body of one `try` block (fetch, prompt build, model call, parse) is
abstracted as `calls : Nat → Except String α`, the outcome of the `attempt`-th
iteration (`.error e` carries the thrown error's message).  The loop state is
the attempt counter; `maxRetries = 3`. -/

/-- geminiService.ts `isRetryableError` (lines 303-318). -/
def isRetryableError (msg : String) : Bool :=
  containsSeq "503".data msg.data || containsSeq "overloaded".data msg.data ||
  containsSeq "429".data msg.data || containsSeq "rate limit".data msg.data ||
  containsSeq "500".data msg.data || containsSeq "502".data msg.data ||
  containsSeq "network".data msg.data || containsSeq "timeout".data msg.data

/-- geminiService.ts `getErrorMessage` (lines 320-334); the final
`error.message || '...'` makes the empty message fall back to the generic
text. -/
def getErrorMessage (msg : String) : String :=
  if containsSeq "503".data msg.data || containsSeq "overloaded".data msg.data then
    "Gemini service is temporarily overloaded. Please wait a moment and try again."
  else if containsSeq "429".data msg.data || containsSeq "rate limit".data msg.data then
    "Rate limit exceeded. Please wait a moment before trying again."
  else if containsSeq "API key".data msg.data then
    "Invalid API key. Please check your Google API key configuration."
  else if containsSeq "network".data msg.data || containsSeq "timeout".data msg.data then
    "Network error. Please check your internet connection and try again."
  else if msg = "" then "An unexpected error occurred. Please try again."
  else msg

/-- The `GeminiResponse` value returned by `summarizeArticle`. -/
structure GeminiOutcome (α : Type) where
  success : Bool
  data : Option α
  error : Option String
deriving DecidableEq

/-- The retry loop of `summarizeArticle` (geminiService.ts 230-301), started
at `attempt`.  Returns the outcome, the 1-based list of attempts actually
made, and the list of backoff delays slept between attempts
(`Math.min(1000 * Math.pow(2, attempt - 1), 5000)`).  A retry happens only
when `attempt < maxRetries` and the error is retryable; a non-retryable
error, or exhaustion, returns `getErrorMessage` of the last error.  The
recursion is structural on a fuel argument; since a retry requires
`attempt < 3`, a fuel of `3` can never run out when starting from attempt 1,
so the fuel-exhausted branch (which duplicates the failure result) is
unreachable from `summarizeArticleLoopStart`. -/
def summarizeLoopF {α : Type} (calls : Nat → Except String α) :
    Nat → Nat → GeminiOutcome α × List Nat × List Nat
  | _, 0 => (⟨false, none, none⟩, [], [])
  | attempt, fuel + 1 =>
    match calls attempt with
    | .ok a => (⟨true, some a, none⟩, [attempt], [])
    | .error e =>
      if attempt < 3 ∧ isRetryableError e = true then
        let r := summarizeLoopF calls (attempt + 1) fuel
        (r.1, attempt :: r.2.1, min (1000 * 2 ^ (attempt - 1)) 5000 :: r.2.2)
      else (⟨false, none, some (getErrorMessage e)⟩, [attempt], [])

/-- geminiService.ts `summarizeArticle`: the loop from attempt 1. -/
def summarizeArticleLoopStart {α : Type} (calls : Nat → Except String α) :
    GeminiOutcome α × List Nat × List Nat :=
  summarizeLoopF calls 1 3

/-! ## The `/api/summarize` endpoint (server.js 838-940)

The handler is modelled as a function of the request URL and of the outcomes
of its effectful steps: the cache state and clock, whether an API key is
configured, the article-text fetch outcome (`extractArticleText` wraps any
axios failure as `Failed to fetch article: <message>`), and the completion
call outcome.  `extractImages` is not a parameter: it swallows its own
errors (returning `[]`) and its result only feeds the prompt payload, so it
cannot affect the control flow modelled here.  The response is the HTTP
status, the error message if any, and the number of completion-service
invocations made while handling the request. -/

/-- server.js `extractArticleText` error wrapping (lines 588-591); the
success path (cheerio text extraction) is abstracted as the string it
produced. -/
def extractArticleText (fetched : Except String String) : Except String String :=
  match fetched with
  | .error msg => .error ("Failed to fetch article: " ++ msg)
  | .ok text => .ok text

/-- Outcome of one modelled `/api/summarize` request. -/
structure ApiOutcome (α : Type) where
  status : Nat
  errorMsg : Option String
  geminiCalls : Nat
  body : Option α
deriving DecidableEq

/-- server.js `app.post('/api/summarize')` (lines 838-940).  `gemini` is the
outcome of `langchainGemini.invoke`, `parse` stands for
`parseGeminiResponse`.  The `prompt`-is-empty guard (line 894) is dead code
for every input because the prompt embeds the fixed nonempty template, so it
is not modelled.  Returns the response outcome and the new cache state. -/
def apiSummarize {α : Type} (keyFn : String → String) (now : Int)
    (cache : CacheMap α) (url : String) (keyConfigured : Bool)
    (fetched : Except String String) (gemini : Except String String)
    (parse : String → α) : ApiOutcome α × CacheMap α :=
  if url = "" then (⟨400, some "URL is required", 0, none⟩, cache)
  else
    match getCachedTranslation keyFn now cache url with
    | (some cachedResult, cache') => (⟨200, none, 0, some cachedResult⟩, cache')
    | (none, cache') =>
      if keyConfigured = false then
        (⟨400, some "Gemini API key not configured. The application will try to load it from the Streamlit secrets file or you can set GEMINI_API_KEY environment variable.", 0, none⟩, cache')
      else
        match extractArticleText fetched with
        | .error msg =>
          (⟨500, some ("Failed to process article: " ++ msg), 0, none⟩, cache')
        | .ok articleText =>
          if articleText = "" then
            (⟨400, some "Could not extract text from URL", 0, none⟩, cache')
          else
            match gemini with
            | .error gmsg =>
              if containsSeq "429".data gmsg.data || containsSeq "quota".data gmsg.data then
                (⟨429, some "API rate limit exceeded. The free tier has daily and per-minute limits. Please wait a few minutes and try again, or upgrade your Gemini API plan for higher limits.", 1, none⟩, cache')
              else
                (⟨500, some ("Failed to process article: Gemini API Error: " ++ gmsg), 1, none⟩, cache')
            | .ok text =>
              let parsed := parse text
              (⟨200, none, 1, some parsed⟩,
                setCachedTranslation keyFn now cache' url parsed)

/-! ## Lemmas about the EV-spread validator -/

/-- Whether the optional previous character is a word character. -/
def prevIsWord : Option Char → Bool
  | none => false
  | some c => isWordChar c

/-- A decimal digit is a word character. -/
theorem isWordChar_of_isDigit {c : Char} (h : c.isDigit = true) :
    isWordChar c = true := by
  simp [isWordChar, Char.isAlphanum, h]

/-- A decimal digit has value at most 9. -/
theorem digitVal_le_nine {c : Char} (h : c.isDigit = true) : digitVal c ≤ 9 := by
  simp only [Char.isDigit, Bool.and_eq_true, decide_eq_true_eq] at h
  obtain ⟨h1, h2⟩ := h
  have h1' : (48:UInt32).toNat ≤ c.val.toNat := h1
  have h2' : c.val.toNat ≤ (57:UInt32).toNat := h2
  simp [digitVal, Char.toNat, UInt32.size] at *
  omega

/-- A digit with value 1, 2 or 3 is the character `'1'`, `'2'` or `'3'`. -/
theorem digit_char_of_val_range {c : Char} (h : c.isDigit = true)
    (h1 : 1 ≤ digitVal c) (h3 : digitVal c ≤ 3) :
    c = '1' ∨ c = '2' ∨ c = '3' := by
  simp only [Char.isDigit, Bool.and_eq_true, decide_eq_true_eq] at h
  obtain ⟨ha, hb⟩ := h
  have ha' : (48:UInt32).toNat ≤ c.val.toNat := ha
  have hb' : c.val.toNat ≤ (57:UInt32).toNat := hb
  simp [digitVal, Char.toNat, UInt32.size] at ha' hb' h1 h3
  have hc : c.val.toNat = 49 ∨ c.val.toNat = 50 ∨ c.val.toNat = 51 := by omega
  rcases hc with hc | hc | hc
  · exact Or.inl (Char.ext (UInt32.ext (by simp [UInt32.size]; omega)))
  · exact Or.inr (Or.inl (Char.ext (UInt32.ext (by simp [UInt32.size]; omega))))
  · exact Or.inr (Or.inr (Char.ext (UInt32.ext (by simp [UInt32.size]; omega))))

/-- The characters `'1'`, `'2'`, `'3'` are digits with the expected values. -/
theorem digitVal_123 {c : Char} (h : c = '1' ∨ c = '2' ∨ c = '3') :
    c.isDigit = true ∧ 1 ≤ digitVal c ∧ digitVal c ≤ 3 := by
  rcases h with h | h | h <;> subst h <;> exact ⟨by decide, by decide, by decide⟩

/-- Value of a three-digit run. -/
theorem runVal_three (d1 d2 d3 : Char) :
    runVal [d1, d2, d3] = 100 * digitVal d1 + 10 * digitVal d2 + digitVal d3 := by
  simp [runVal, List.foldl]; ring

/-- A three-digit run headed by `'1'`, `'2'` or `'3'` has value in
`[100, 399]`. -/
theorem runVal_three_range {d1 d2 d3 : Char}
    (h1 : d1 = '1' ∨ d1 = '2' ∨ d1 = '3') (h2 : d2.isDigit = true)
    (h3 : d3.isDigit = true) :
    100 ≤ runVal [d1, d2, d3] ∧ runVal [d1, d2, d3] ≤ 399 := by
  obtain ⟨-, hv1, hv3⟩ := digitVal_123 h1
  have := digitVal_le_nine h2
  have := digitVal_le_nine h3
  rw [runVal_three]
  omega

/-- If the input decomposes as `a ++ [d1, d2, d3] ++ b` with `d1 ∈ {1,2,3}`,
digits `d2, d3`, and non-word boundaries on both sides, then `statPattern`
fires. -/
theorem hasFinal_of_decomp :
    ∀ (a : List Char) (prev : Option Char) {d1 d2 d3 : Char} {b : List Char},
    (d1 = '1' ∨ d1 = '2' ∨ d1 = '3') → d2.isDigit = true → d3.isDigit = true →
    (b = [] ∨ ∃ r rs, b = r :: rs ∧ isWordChar r = false) →
    ((a = [] ∧ prevIsWord prev = false) ∨
      ∃ a' p, a = a' ++ [p] ∧ isWordChar p = false) →
    hasFinalStatAux prev (a ++ d1 :: d2 :: d3 :: b) = true := by
  intro a
  induction a with
  | nil =>
    intro prev d1 d2 d3 b h1 h2 h3 hb hlast
    have hprev : prevIsWord prev = false := by
      rcases hlast with ⟨-, hp⟩ | ⟨a', p, hap, -⟩
      · exact hp
      · exact absurd (congrArg List.length hap) (by simp)
    have hfs : finalStatHere prev (d1 :: d2 :: d3 :: b) = true := by
      simp only [finalStatHere, Bool.and_eq_true]
      refine ⟨⟨⟨⟨?_, h2⟩, h3⟩, ?_⟩, ?_⟩
      · rcases h1 with h | h | h <;> simp [h]
      · cases prev with
        | none => rfl
        | some p => simpa [prevIsWord] using hprev
      · rcases hb with rfl | ⟨r, rs, rfl, hr⟩
        · rfl
        · simpa using hr
    simp [hasFinalStatAux, hfs]
  | cons x a' ih =>
    intro prev d1 d2 d3 b h1 h2 h3 hb hlast
    have hrec : hasFinalStatAux (some x) (a' ++ d1 :: d2 :: d3 :: b) = true := by
      apply ih (some x) h1 h2 h3 hb
      rcases hlast with ⟨hnil, -⟩ | ⟨a'', p, hap, hp⟩
      · exact absurd hnil (by simp)
      · cases a'' with
        | nil =>
          simp only [List.nil_append, List.cons.injEq] at hap
          obtain ⟨rfl, rfl⟩ := hap
          exact Or.inl ⟨rfl, by simpa [prevIsWord] using hp⟩
        | cons z zs =>
          simp only [List.cons_append, List.cons.injEq] at hap
          obtain ⟨rfl, rfl⟩ := hap
          exact Or.inr ⟨zs, p, rfl, hp⟩
    simp [hasFinalStatAux, hrec]

/-- If no number matched by `/\b(\d+)\b/g` lies in `[100, 399]`, then
`statPattern` cannot fire.  The invariants: a run is being accumulated only
when the previous character is a digit, and `prevWord` tracks the previous
character's word-character status. -/
theorem evRuns_safe :
    ∀ (l : List Char) (run : Option (List Char)) (prevWord : Bool) (prev : Option Char),
    (∀ r, run = some r → ∃ c, prev = some c ∧ c.isDigit = true) →
    prevWord = prevIsWord prev →
    (∀ r ∈ evRunsAux run prevWord l, ¬(100 ≤ runVal r ∧ runVal r ≤ 399)) →
    hasFinalStatAux prev l = false := by
  intro l
  induction l with
  | nil => intro run prevWord prev _ _ _; rfl
  | cons c cs ih =>
    intro run prevWord prev hinv hpw htok
    simp only [hasFinalStatAux, Bool.or_eq_false_iff]
    constructor
    · -- the anchored attempt at this position fails
      match cs with
      | [] => rfl
      | [d2] => rfl
      | d2 :: d3 :: rest =>
        by_cases hfs : finalStatHere prev (c :: d2 :: d3 :: rest) = true
        · exfalso
          simp only [finalStatHere, Bool.and_eq_true] at hfs
          obtain ⟨⟨⟨⟨h123, hd2⟩, hd3⟩, hprevok⟩, hrestok⟩ := hfs
          simp only [Bool.or_eq_true, decide_eq_true_eq] at h123
          rw [or_assoc] at h123
          have hprev : prevIsWord prev = false := by
            cases prev with
            | none => rfl
            | some p =>
              simp only [Bool.not_eq_eq_eq_not, Bool.not_true] at hprevok
              simpa [prevIsWord] using hprevok
          have hrun : run = none := by
            cases hr : run with
            | none => rfl
            | some r0 =>
              obtain ⟨c0, hc0, hc0d⟩ := hinv r0 hr
              rw [hc0] at hprev
              simp [prevIsWord, isWordChar_of_isDigit hc0d] at hprev
          have hpwf : prevWord = false := by rw [hpw, hprev]
          have hcdig : c.isDigit = true := (digitVal_123 h123).1
          have hmem : [c, d2, d3] ∈ evRunsAux run prevWord (c :: d2 :: d3 :: rest) := by
            subst hrun hpwf
            simp only [evRunsAux, hcdig, Bool.not_false, Bool.and_self, if_true,
              hd2, hd3]
            match rest, hrestok with
            | [], _ => simp [evRunsAux]
            | r :: rs, hrestok =>
              have hrw : isWordChar r = false := by
                simpa using hrestok
              have hrd : r.isDigit = false := by
                cases hd : r.isDigit with
                | false => rfl
                | true => rw [isWordChar_of_isDigit hd] at hrw; cases hrw
              simp [evRunsAux, hrd, hrw]
          have := htok _ hmem
          exact this (runVal_three_range h123 hd2 hd3)
        · exact Bool.not_eq_true _ ▸ (by simpa using hfs)
    · -- the scan continues: apply the induction hypothesis
      cases hr : run with
      | some r0 =>
        by_cases hcd : c.isDigit = true
        · refine ih (some (c :: r0)) true (some c) ?_ ?_ ?_
          · exact fun r h => ⟨c, rfl, hcd⟩
          · simp [prevIsWord, isWordChar_of_isDigit hcd]
          · intro r hmem
            refine htok r ?_
            subst hr
            simpa only [evRunsAux, hcd, if_true] using hmem
        · by_cases hwc : isWordChar c = true
          · refine ih none true (some c) (by simp) ?_ ?_
            · simp [prevIsWord, hwc]
            · intro r hmem
              refine htok r ?_
              subst hr
              simpa only [evRunsAux, hcd, hwc, if_false, if_true] using hmem
          · refine ih none false (some c) (by simp) ?_ ?_
            · simp [prevIsWord]
              exact (Bool.not_eq_true _).mp hwc
            · intro r hmem
              refine htok r ?_
              subst hr
              simp only [evRunsAux, hcd, hwc, if_false]
              exact List.mem_cons_of_mem _ hmem
      | none =>
        by_cases hcd : (c.isDigit && !prevWord) = true
        · have hcd' : c.isDigit = true ∧ prevWord = false := by simpa using hcd
          refine ih (some [c]) true (some c) ?_ ?_ ?_
          · exact fun r h => ⟨c, rfl, hcd'.1⟩
          · simp [prevIsWord, isWordChar_of_isDigit hcd'.1]
          · intro r hmem
            refine htok r ?_
            subst hr
            simpa only [evRunsAux, hcd, if_true] using hmem
        · refine ih none (isWordChar c) (some c) (by simp) rfl ?_
          intro r hmem
          refine htok r ?_
          subst hr
          simpa only [evRunsAux, hcd, if_false] using hmem

/-- Corollary: if no extracted number lies in `[100, 399]`, the final-stat
pattern does not fire. -/
theorem hasFinalStat_false_of_tokens {l : List Char}
    (h : ∀ n ∈ evTokens l, ¬(100 ≤ n ∧ n ≤ 399)) : hasFinalStat l = false :=
  evRuns_safe l none false none (by simp) rfl
    (fun r hr => h (runVal r) (List.mem_map_of_mem _ hr))

/-- The sentinel input string contains no digit. -/
theorem sentinel_no_digit :
    ∀ c ∈ "Not specified in the article".data, c.isDigit = false := by decide

/-- Claim C2: for every EV-spread input string containing a standalone
3-digit number with value in `[100, 399]` (three digit characters with
non-word boundaries on both sides), `validateAndFixEVSpread` returns the
"final stat values detected" sentinel, regardless of everything else in the
string. -/
theorem C2_final_stat_values_rejected (s : String) (a b : List Char)
    (d1 d2 d3 : Char) (hs : s.data = a ++ d1 :: d2 :: d3 :: b)
    (hd1 : d1.isDigit = true) (hd2 : d2.isDigit = true) (hd3 : d3.isDigit = true)
    (hlo : 100 ≤ 100 * digitVal d1 + 10 * digitVal d2 + digitVal d3)
    (hhi : 100 * digitVal d1 + 10 * digitVal d2 + digitVal d3 ≤ 399)
    (ha : a = [] ∨ ∃ a' p, a = a' ++ [p] ∧ isWordChar p = false)
    (hb : b = [] ∨ ∃ r rs, b = r :: rs ∧ isWordChar r = false) :
    validateAndFixEVSpread s =
      "EVs not specified in the article (final stat values detected)" := by
  have h2 := digitVal_le_nine hd2
  have h3 := digitVal_le_nine hd3
  have h123 : d1 = '1' ∨ d1 = '2' ∨ d1 = '3' :=
    digit_char_of_val_range hd1 (by omega) (by omega)
  have hfs : hasFinalStat s.data = true := by
    rw [hasFinalStat, hs]
    apply hasFinal_of_decomp a none h123 hd2 hd3 hb
    rcases ha with rfl | ⟨a', p, rfl, hp⟩
    · exact Or.inl ⟨rfl, rfl⟩
    · exact Or.inr ⟨a', p, rfl, hp⟩
  have hne : s ≠ "" := by
    intro h
    rw [h] at hs
    exact absurd (congrArg List.length hs) (by simp; omega)
  have hne2 : s ≠ "Not specified in the article" := by
    intro h
    have hmem : d1 ∈ s.data := by rw [hs]; simp
    rw [h] at hmem
    have := sentinel_no_digit d1 hmem
    rw [hd1] at this
    cases this
  simp [validateAndFixEVSpread, hne, hne2, hfs]

/-- Witness for C2 at the spec's end-to-end scenario 3 input. -/
theorem C2_final_stat_values_rejected_witness :
    ("175 207 111 202 156 97" : String).data =
      [] ++ '1' :: '7' :: '5' :: " 207 111 202 156 97".data ∧
    validateAndFixEVSpread "175 207 111 202 156 97" =
      "EVs not specified in the article (final stat values detected)" :=
  ⟨by decide,
    C2_final_stat_values_rejected "175 207 111 202 156 97" []
      " 207 111 202 156 97".data '1' '7' '5' (by decide) (by decide) (by decide)
      (by decide) (by decide) (by decide) (Or.inl rfl)
      (Or.inr ⟨' ', "207 111 202 156 97".data, by decide, by decide⟩)⟩

/-- Claim C3, counterexample: the empty string satisfies the claim's
hypothesis vacuously (it contains no number at all), yet
`validateAndFixEVSpread` does not return it unchanged — it returns the
"EVs not specified" sentinel. -/
theorem C3_identity_counterexample :
    evTokens ("" : String).data = [] ∧ validateAndFixEVSpread "" ≠ "" := by
  constructor
  · rfl
  · decide

/-- Claim C3 as amended: for every NONEMPTY input string other than the
literal `"Not specified in the article"` in which every extracted number is
a multiple of 4 in `[0, 252]` and no number lies in `[100, 399]`,
`validateAndFixEVSpread` is the identity. -/
theorem C3_identity_on_valid (s : String) (h0 : s ≠ "")
    (h1 : s ≠ "Not specified in the article")
    (hall : ∀ n ∈ evTokens s.data,
      n % 4 = 0 ∧ n ≤ 252 ∧ ¬(100 ≤ n ∧ n ≤ 399)) :
    validateAndFixEVSpread s = s := by
  have hfs : hasFinalStat s.data = false :=
    hasFinalStat_false_of_tokens (fun n hn => (hall n hn).2.2)
  have hany : (evTokens s.data).any (fun num => num > 252 || num % 4 != 0) = false := by
    rw [List.any_eq_false]
    intro n hn
    obtain ⟨hm4, h252, -⟩ := hall n hn
    simp [hm4]
    omega
  simp [validateAndFixEVSpread, h0, h1, hfs, hany]

/-- Witness for the amended C3 at a concrete valid spread. -/
theorem C3_identity_on_valid_witness :
    ("96 0 4 92 0 0" : String) ≠ "" ∧
    ("96 0 4 92 0 0" : String) ≠ "Not specified in the article" ∧
    evTokens ("96 0 4 92 0 0" : String).data = [96, 0, 4, 92, 0, 0] ∧
    validateAndFixEVSpread "96 0 4 92 0 0" = "96 0 4 92 0 0" :=
  ⟨by decide, by decide, by decide,
    C3_identity_on_valid "96 0 4 92 0 0" (by decide) (by decide) (by decide)⟩

set_option maxRecDepth 16384 in
/-- Claim C1: evaluation of the code at the claimed scenario.  A member
segment with `EV Spread: 252 0 4 252 0 0` and `Nature: Modest` does NOT
yield the six EV values: `validateAndFixEVSpread` downgrades the spread to
the "final stat values detected" sentinel, because `252` matches the 3-digit
pattern `\b(1[0-9][0-9]|2[0-9][0-9]|3[0-9][0-9])\b`; the parsed record keeps
nature "Modest" but has all per-stat EVs 0 and `remainingEvs` 508. -/
theorem C1_canonical_spread_downgraded :
    validateAndFixEVSpread "252 0 4 252 0 0" =
      "EVs not specified in the article (final stat values detected)" ∧
    (parseGeminiTeams ("TITLE: Test\n**Pokémon 1: [Garchomp]\n- Ability: Rough Skin\n- Held Item: Life Orb\n- Tera Type: Steel\n- Moves: Earthquake / Dragon Claw\n- EV Spread: 252 0 4 252 0 0\n- Nature: Modest\n- EV Explanation: bulk\n")).map
        (fun t => (t.nature, t.evSpread,
          [t.stats.hp.evs, t.stats.attack.evs, t.stats.defense.evs,
            t.stats.spAtk.evs, t.stats.spDef.evs, t.stats.speed.evs],
          t.remainingEvs)) =
      [("Modest", "EVs not specified in the article (final stat values detected)",
        [0, 0, 0, 0, 0, 0], 508)] := by
  constructor
  · decide
  · decide

/-! ## Lemmas about the member loops -/

/-- The server member loop is a map over the first `7 - i` sections. -/
theorem parseTeamsLoop_eq_map :
    ∀ (l : List (List Char)) (i : Nat),
    parseTeamsLoop i l = (l.take (7 - i)).map parseTeamSection := by
  intro l
  induction l with
  | nil => intro i; simp [parseTeamsLoop]
  | cons s rest ih =>
    intro i
    by_cases h : i ≤ 6
    · have h7 : 7 - i = (7 - (i + 1)) + 1 := by omega
      simp [parseTeamsLoop, h, h7, ih]
    · have h7 : 7 - i = 0 := by omega
      simp [parseTeamsLoop, h, h7]

/-- `parseGeminiResponse` builds its team list by mapping the per-section
parser over (at most) the first six member sections, in order. -/
theorem parseGeminiTeams_eq_map (text : String) :
    parseGeminiTeams text =
      (((splitPokemonSections text.data).drop 1).take 6).map parseTeamSection := by
  rw [parseGeminiTeams, parseTeamsLoop_eq_map]

/-- `mapIdxFrom` preserves length. -/
theorem mapIdxFrom_length {α β : Type} (f : Nat → α → β) :
    ∀ (i : Nat) (l : List α), (mapIdxFrom f i l).length = l.length := by
  intro i l
  induction l generalizing i with
  | nil => rfl
  | cons a as ih => simp [mapIdxFrom, ih]

/-- The client member loop is an index-aware map over the first `7 - i`
sections. -/
theorem parseDetailedLoop_eq_mapIdx :
    ∀ (l : List (List Char)) (i : Nat),
    parseDetailedLoop i l = mapIdxFrom parseTsSection i (l.take (7 - i)) := by
  intro l
  induction l with
  | nil => intro i; simp [parseDetailedLoop, mapIdxFrom]
  | cons s rest ih =>
    intro i
    by_cases h : i ≤ 6
    · have h7 : 7 - i = (7 - (i + 1)) + 1 := by omega
      simp [parseDetailedLoop, h, h7, mapIdxFrom, ih]
    · have h7 : 7 - i = 0 := by omega
      simp [parseDetailedLoop, h, h7, mapIdxFrom]

/-- `parseDetailedTeamMembers` builds its member list by mapping the
per-section parser (with its 1-based index) over (at most) the first six
member sections, in order. -/
theorem parseDetailedTeamMembers_eq_mapIdx (text : String) :
    parseDetailedTeamMembers text =
      mapIdxFrom parseTsSection 1 (((splitTsSections text.data).drop 1).take 6) := by
  rw [parseDetailedTeamMembers, parseDetailedLoop_eq_mapIdx]

/-- Claim C5: when a completion text contains more than six member-section
markers (more than seven split fields), both parsers return exactly six
records, taken from the first six marker-delimited segments in order; the
rest are ignored without error. -/
theorem C5_first_six_markers (text : String) :
    (7 < (splitPokemonSections text.data).length →
      parseGeminiTeams text =
        (((splitPokemonSections text.data).drop 1).take 6).map parseTeamSection ∧
      (parseGeminiTeams text).length = 6) ∧
    (7 < (splitTsSections text.data).length →
      parseDetailedTeamMembers text =
        mapIdxFrom parseTsSection 1 (((splitTsSections text.data).drop 1).take 6) ∧
      (parseDetailedTeamMembers text).length = 6) := by
  constructor
  · intro hlen
    refine ⟨parseGeminiTeams_eq_map text, ?_⟩
    rw [parseGeminiTeams_eq_map text, List.length_map, List.length_take,
      List.length_drop]
    omega
  · intro hlen
    refine ⟨parseDetailedTeamMembers_eq_mapIdx text, ?_⟩
    rw [parseDetailedTeamMembers_eq_mapIdx text, mapIdxFrom_length,
      List.length_take, List.length_drop]
    omega

set_option maxRecDepth 32768 in
/-- Witness for C5 on a text with seven member markers (of both the server
and client marker shapes). -/
theorem C5_first_six_markers_witness :
    (7 < (splitPokemonSections ("a**Pokémon 1: b**Pokémon 2: c**Pokémon 3: d**Pokémon 4: e**Pokémon 5: f**Pokémon 6: g**Pokémon 7: h" : String).data).length ∧
      (parseGeminiTeams "a**Pokémon 1: b**Pokémon 2: c**Pokémon 3: d**Pokémon 4: e**Pokémon 5: f**Pokémon 6: g**Pokémon 7: h").length = 6) ∧
    (7 < (splitTsSections ("a**Pokémon 1: b**Pokémon 2: c**Pokémon 3: d**Pokémon 4: e**Pokémon 5: f**Pokémon 6: g**Pokémon 7: h" : String).data).length ∧
      (parseDetailedTeamMembers "a**Pokémon 1: b**Pokémon 2: c**Pokémon 3: d**Pokémon 4: e**Pokémon 5: f**Pokémon 6: g**Pokémon 7: h").length = 6) :=
  ⟨⟨by decide,
      ((C5_first_six_markers "a**Pokémon 1: b**Pokémon 2: c**Pokémon 3: d**Pokémon 4: e**Pokémon 5: f**Pokémon 6: g**Pokémon 7: h").1 (by decide)).2⟩,
    ⟨by decide,
      ((C5_first_six_markers "a**Pokémon 1: b**Pokémon 2: c**Pokémon 3: d**Pokémon 4: e**Pokémon 5: f**Pokémon 6: g**Pokémon 7: h").2 (by decide)).2⟩⟩

/-! ## Lemmas about per-field extraction -/

/-- If the label does not occur in the section, the server field regex finds
nothing. -/
theorem findFieldAux_none {label : List Char} :
    ∀ {s : List Char}, containsSeq label s = false → findFieldAux label s = none := by
  intro s
  induction s with
  | nil => intro _; rfl
  | cons c cs ih =>
    intro h
    simp only [containsSeq, Bool.or_eq_false_iff] at h
    simp [findFieldAux, h.1, ih h.2]

/-- If the label does not occur in the section, the client field regex finds
nothing. -/
theorem findFieldTsAux_none {label : List Char} :
    ∀ {s : List Char}, containsSeq label s = false → findFieldTsAux label s = none := by
  intro s
  induction s with
  | nil => intro _; rfl
  | cons c cs ih =>
    intro h
    simp only [containsSeq, Bool.or_eq_false_iff] at h
    simp [findFieldTsAux, h.1, ih h.2]

/-- If the label does not occur in the section, there is no suffix after it. -/
theorem findLabelSuffix_none {label : List Char} :
    ∀ {s : List Char}, containsSeq label s = false → findLabelSuffix label s = none := by
  intro s
  induction s with
  | nil => intro _; rfl
  | cons c cs ih =>
    intro h
    simp only [containsSeq, Bool.or_eq_false_iff] at h
    simp [findLabelSuffix, h.1, ih h.2]

/-- A pattern matches at the start of itself followed by anything. -/
theorem leadsWith_append_self : ∀ (p t : List Char), leadsWith p (p ++ t) = true := by
  intro p t
  induction p with
  | nil => rfl
  | cons x xs ih => simp [leadsWith, ih]

/-- `applyEvs` only touches `stats` and `remainingEvs`. -/
theorem applyEvs_proj (v : String) (t : Team) :
    (applyEvs v t).pokemon = t.pokemon ∧
    (applyEvs v t).ability = t.ability ∧
    (applyEvs v t).item = t.item ∧
    (applyEvs v t).teraType = t.teraType ∧
    (applyEvs v t).nature = t.nature ∧
    (applyEvs v t).moves = t.moves ∧
    (applyEvs v t).strategy = t.strategy ∧
    (applyEvs v t).evSpread = t.evSpread := by
  unfold applyEvs
  split
  · dsimp only
    split
    · exact ⟨rfl, rfl, rfl, rfl, rfl, rfl, rfl, rfl⟩
    · exact ⟨rfl, rfl, rfl, rfl, rfl, rfl, rfl, rfl⟩
  · exact ⟨rfl, rfl, rfl, rfl, rfl, rfl, rfl, rfl⟩

/-- The fields of a parsed server team record in terms of the per-field
extractors. -/
theorem parseTeamSection_fields (s : List Char) :
    (parseTeamSection s).ability = fieldValue "Ability:" s ∧
    (parseTeamSection s).item = fieldValue "Held Item:" s ∧
    (parseTeamSection s).teraType = fieldValue "Tera Type:" s ∧
    (parseTeamSection s).nature = fieldValue "Nature:" s ∧
    (parseTeamSection s).moves = movesOf s ∧
    (parseTeamSection s).strategy = strategyOf s ∧
    (parseTeamSection s).evSpread = validateAndFixEVSpread (rawEVSpreadOf s) := by
  simp only [parseTeamSection]
  exact ⟨(applyEvs_proj _ _).2.1, (applyEvs_proj _ _).2.2.1,
    (applyEvs_proj _ _).2.2.2.1, (applyEvs_proj _ _).2.2.2.2.1,
    (applyEvs_proj _ _).2.2.2.2.2.1, (applyEvs_proj _ _).2.2.2.2.2.2.1,
    (applyEvs_proj _ _).2.2.2.2.2.2.2⟩

/-- The fields of a parsed client member record in terms of the per-field
extractors. -/
theorem parseTsSection_fields (i : Nat) (s : List Char) :
    (parseTsSection i s).ability = tsFieldValue "- Ability:" s ∧
    (parseTsSection i s).item = tsFieldValue "- Held Item:" s ∧
    (parseTsSection i s).teraType = tsFieldValue "- Tera Type:" s ∧
    (parseTsSection i s).nature = tsFieldValue "- Nature:" s := by
  refine ⟨?_, ?_, ?_, ?_⟩ <;> rfl

/-- First successful match wins (server regexes): if the label's first
occurrence in `a ++ label ++ b` is at position `a.length` and the tail
attempt there succeeds with capture `cap`, the extraction returns `cap` —
any further label occurrences inside `b` are ignored. -/
theorem findFieldAux_first :
    ∀ (a label b cap : List Char), label ≠ [] →
    (∀ k, k < a.length → leadsWith label ((a ++ label ++ b).drop k) = false) →
    matchFieldTail b = some cap →
    findFieldAux label (a ++ label ++ b) = some cap := by
  intro a
  induction a with
  | nil =>
    intro label b cap hne _ hmt
    rcases label with _ | ⟨x, xs⟩
    · exact absurd rfl hne
    · have h1 : leadsWith (x :: xs) ((x :: xs) ++ b) = true :=
        leadsWith_append_self (x :: xs) b
      have h2 : List.drop (xs.length + 1) (x :: (xs ++ b)) = b := by simp
      simp only [List.nil_append]
      rw [List.cons_append] at h1 ⊢
      simp only [findFieldAux, h1, if_true, List.length_cons, h2, hmt]
  | cons y a' ih =>
    intro label b cap hne hocc hmt
    have h0 : leadsWith label (y :: (a' ++ (label ++ b))) = false := by
      simpa using hocc 0 (by simp)
    have hstep : findFieldAux label ((y :: a') ++ label ++ b)
        = findFieldAux label (a' ++ label ++ b) := by
      show findFieldAux label (y :: (a' ++ label ++ b)) = _
      rw [findFieldAux]
      simp [h0]
    rw [hstep]
    apply ih label b cap hne ?_ hmt
    intro k hk
    simpa using hocc (k + 1) (by simp; omega)

/-- First successful match wins (client regexes). -/
theorem findFieldTsAux_first :
    ∀ (a label b cap : List Char), label ≠ [] →
    (∀ k, k < a.length → leadsWith label ((a ++ label ++ b).drop k) = false) →
    matchFieldTailTs b = some cap →
    findFieldTsAux label (a ++ label ++ b) = some cap := by
  intro a
  induction a with
  | nil =>
    intro label b cap hne _ hmt
    rcases label with _ | ⟨x, xs⟩
    · exact absurd rfl hne
    · have h1 : leadsWith (x :: xs) ((x :: xs) ++ b) = true :=
        leadsWith_append_self (x :: xs) b
      have h2 : List.drop (xs.length + 1) (x :: (xs ++ b)) = b := by simp
      simp only [List.nil_append]
      rw [List.cons_append] at h1 ⊢
      simp only [findFieldTsAux, h1, if_true, List.length_cons, h2, hmt]
  | cons y a' ih =>
    intro label b cap hne hocc hmt
    have h0 : leadsWith label (y :: (a' ++ (label ++ b))) = false := by
      simpa using hocc 0 (by simp)
    have hstep : findFieldTsAux label ((y :: a') ++ label ++ b)
        = findFieldTsAux label (a' ++ label ++ b) := by
      show findFieldTsAux label (y :: (a' ++ label ++ b)) = _
      rw [findFieldTsAux]
      simp [h0]
    rw [hstep]
    apply ih label b cap hne ?_ hmt
    intro k hk
    simpa using hocc (k + 1) (by simp; omega)

/-- Claim C6: fields are extracted independently per segment.  The record
list is a per-segment map (so no segment's fields influence another's); in
a segment, a field whose label is absent gets exactly its sentinel while
every other field is still given by its own extractor (the record is built
field-by-field from independent extractors); and when a label occurs more
than once, the extraction takes the capture of the first (successful)
occurrence, ignoring the rest. -/
theorem C6_field_extraction_independence :
    (∀ text : String, parseGeminiTeams text =
      (((splitPokemonSections text.data).drop 1).take 6).map parseTeamSection) ∧
    (∀ text : String, parseDetailedTeamMembers text =
      mapIdxFrom parseTsSection 1 (((splitTsSections text.data).drop 1).take 6)) ∧
    (∀ s : List Char,
      (containsSeq "Ability:".data s = false →
        (parseTeamSection s).ability = "Not specified") ∧
      (containsSeq "Held Item:".data s = false →
        (parseTeamSection s).item = "Not specified") ∧
      (containsSeq "Tera Type:".data s = false →
        (parseTeamSection s).teraType = "Not specified") ∧
      (containsSeq "Nature:".data s = false →
        (parseTeamSection s).nature = "Not specified") ∧
      (containsSeq "Moves:".data s = false →
        (parseTeamSection s).moves = []) ∧
      (containsSeq "EV Spread:".data s = false →
        (parseTeamSection s).evSpread = "Not specified") ∧
      (containsSeq "EV Explanation:".data s = false →
        (parseTeamSection s).strategy = "Not specified")) ∧
    (∀ (i : Nat) (s : List Char),
      (containsSeq "- Ability:".data s = false →
        (parseTsSection i s).ability = "Not specified") ∧
      (containsSeq "- Held Item:".data s = false →
        (parseTsSection i s).item = "Not specified") ∧
      (containsSeq "- Tera Type:".data s = false →
        (parseTsSection i s).teraType = "Not specified") ∧
      (containsSeq "- Nature:".data s = false →
        (parseTsSection i s).nature = "Not specified") ∧
      (containsSeq "- Moves:".data s = false →
        (parseTsSection i s).moves = []) ∧
      (containsSeq "- EV Spread:".data s = false →
        (parseTsSection i s).evs = none) ∧
      (containsSeq "- EV Explanation:".data s = false →
        (parseTsSection i s).evExplanation = "Not specified")) ∧
    (∀ (a label b cap : List Char), label ≠ [] →
      (∀ k, k < a.length → leadsWith label ((a ++ label ++ b).drop k) = false) →
      matchFieldTail b = some cap →
      findFieldAux label (a ++ label ++ b) = some cap) ∧
    (∀ (a label b cap : List Char), label ≠ [] →
      (∀ k, k < a.length → leadsWith label ((a ++ label ++ b).drop k) = false) →
      matchFieldTailTs b = some cap →
      findFieldTsAux label (a ++ label ++ b) = some cap) := by
  refine ⟨parseGeminiTeams_eq_map, parseDetailedTeamMembers_eq_mapIdx, ?_, ?_,
    findFieldAux_first, findFieldTsAux_first⟩
  · intro s
    obtain ⟨hab, hit, hte, hna, hmo, hst, hev⟩ := parseTeamSection_fields s
    refine ⟨?_, ?_, ?_, ?_, ?_, ?_, ?_⟩
    · intro h; rw [hab, fieldValue, findFieldAux_none h]
    · intro h; rw [hit, fieldValue, findFieldAux_none h]
    · intro h; rw [hte, fieldValue, findFieldAux_none h]
    · intro h; rw [hna, fieldValue, findFieldAux_none h]
    · intro h; rw [hmo, movesOf, findFieldAux_none h]
    · intro h
      rw [hev, rawEVSpreadOf, fieldValue, findFieldAux_none h]
      decide
    · intro h
      rw [hst, strategyOf, findExplanation, findLabelSuffix_none h]
      rfl
  · intro i s
    obtain ⟨hab, hit, hte, hna⟩ := parseTsSection_fields i s
    refine ⟨?_, ?_, ?_, ?_, ?_, ?_, ?_⟩
    · intro h; rw [hab, tsFieldValue, findFieldTsAux_none h]
    · intro h; rw [hit, tsFieldValue, findFieldTsAux_none h]
    · intro h; rw [hte, tsFieldValue, findFieldTsAux_none h]
    · intro h; rw [hna, tsFieldValue, findFieldTsAux_none h]
    · intro h
      show (match findFieldTsAux "- Moves:".data s with
        | some cap =>
          ((splitOnChar '/' cap).map (fun mv => String.mk (jsTrim mv))).filter
            (fun mv => mv ≠ "")
        | none => []) = []
      rw [findFieldTsAux_none h]
    · intro h
      show parseEVSpread (match findFieldTsAux "- EV Spread:".data s with
        | some cap => String.mk (jsTrim cap)
        | none => "Not specified") = none
      rw [findFieldTsAux_none h]
      rfl
    · intro h
      show (match tsExplanationOf s with
        | some cap => String.mk (jsTrim cap)
        | none => "Not specified") = "Not specified"
      rw [tsExplanationOf, findLabelSuffix_none h]
      rfl

/-- Witness for C6: a segment without an `Ability:` label gets the sentinel
for exactly that field while its sibling `Held Item:` still extracts, and a
duplicated `Moves:` label yields the first occurrence's capture. -/
theorem C6_field_extraction_independence_witness :
    (containsSeq "Ability:".data "X\nHeld Item: Leftovers\n".data = false ∧
      (parseTeamSection "X\nHeld Item: Leftovers\n".data).ability = "Not specified" ∧
      (parseTeamSection "X\nHeld Item: Leftovers\n".data).item = "Leftovers") ∧
    (matchFieldTail " A/B\nMoves: C\n".data = some "A/B".data ∧
      findFieldAux "Moves:".data
        ("x".data ++ "Moves:".data ++ " A/B\nMoves: C\n".data) = some "A/B".data) :=
  ⟨⟨by decide, (C6_field_extraction_independence.2.2.1 _).1 (by decide), by decide⟩,
    ⟨by decide,
      C6_field_extraction_independence.2.2.2.2.1 "x".data "Moves:".data
        " A/B\nMoves: C\n".data "A/B".data (by decide) (by decide) (by decide)⟩⟩

/-- Claim C9, counterexample: the server parser (`parseGeminiResponse`) does
NOT drop empty move slots — splitting `Protect//Tailwind` on `/` keeps the
empty middle slot as a move with empty name. -/
theorem C9_empty_moves_counterexample :
    (parseGeminiTeams "x\n**Pokémon 1: [A]\n- Moves: Protect//Tailwind\n").map
      (fun t => t.moves.map Move.name) = [["Protect", "", "Tailwind"]] ∧
    "" ∈ ((parseGeminiTeams "x\n**Pokémon 1: [A]\n- Moves: Protect//Tailwind\n").map
      (fun t => t.moves.map Move.name)).flatten := by
  constructor
  · decide
  · decide

/-- Members of `mapIdxFrom` come from applying the function to some index
and element. -/
theorem mem_mapIdxFrom {α β : Type} {f : Nat → α → β} :
    ∀ {i : Nat} {l : List α} {b : β}, b ∈ mapIdxFrom f i l →
      ∃ j a, b = f j a := by
  intro i l
  induction l generalizing i with
  | nil => intro b h; cases h
  | cons a as ih =>
    intro b h
    rcases h with _ | ⟨_, h⟩
    · exact ⟨i, a, rfl⟩
    · exact ih h

/-- Claim C9 as amended: the CLIENT parser (`parseDetailedTeamMembers`)
splits moves on `/`, trims each name and drops empty slots, so every move
name in a parsed client record is nonempty; the server parser only trims
and keeps empty slots (see the counterexample). -/
theorem C9_client_moves_nonempty (summary : String)
    (t : PokemonTeamMember) (m : String)
    (ht : t ∈ parseDetailedTeamMembers summary) (hm : m ∈ t.moves) :
    m ≠ "" := by
  rw [parseDetailedTeamMembers_eq_mapIdx] at ht
  obtain ⟨j, s, rfl⟩ := mem_mapIdxFrom ht
  revert hm
  show m ∈ (match findFieldTsAux "- Moves:".data s with
    | some cap =>
      ((splitOnChar '/' cap).map (fun mv => String.mk (jsTrim mv))).filter
        (fun mv => mv ≠ "")
    | none => []) → m ≠ ""
  match findFieldTsAux "- Moves:".data s with
  | some cap =>
    intro hm
    have := List.of_mem_filter hm
    simpa using this
  | none => intro hm; cases hm

/-- Witness for the amended C9 at a concrete client parse: the parsed
member's move list is `["Protect", "Fake Out"]` (the empty slot dropped) and
the theorem applies to its first move. -/
theorem C9_client_moves_nonempty_witness :
    parseTsSection 1 " A\n- Moves: Protect / / Fake Out\n".data
      ∈ parseDetailedTeamMembers "t\nPokémon 1: A\n- Moves: Protect / / Fake Out\n" ∧
    "Protect" ∈ (parseTsSection 1 " A\n- Moves: Protect / / Fake Out\n".data).moves ∧
    ("Protect" : String) ≠ "" :=
  ⟨by decide, by decide,
    C9_client_moves_nonempty "t\nPokémon 1: A\n- Moves: Protect / / Fake Out\n"
      (parseTsSection 1 " A\n- Moves: Protect / / Fake Out\n".data) "Protect"
      (by decide) (by decide)⟩

/-! ## Lemmas about the EV block of the server parser -/

/-- When the validated spread is a sentinel or splits into fewer than six
fields, `applyEvs` leaves stats and `remainingEvs` untouched. -/
theorem applyEvs_keep (v : String) (t : Team)
    (h : ¬(v ≠ "EVs not specified in the article" ∧
        v ≠ "EVs not specified in the article (final stat values detected)" ∧
        v ≠ "EVs not specified in the article (invalid EV values detected)") ∨
      (splitWs v.data).length < 6) :
    (applyEvs v t).stats = t.stats ∧
    (applyEvs v t).remainingEvs = t.remainingEvs := by
  unfold applyEvs
  rcases h with h | h
  · rw [if_neg h]
    exact ⟨rfl, rfl⟩
  · split
    · dsimp only
      rw [if_neg (by omega)]
      exact ⟨rfl, rfl⟩
    · exact ⟨rfl, rfl⟩

/-- When the validated spread is none of the sentinels and splits into at
least six fields, `applyEvs` overwrites the six per-stat EVs with the
`parseInt`-values of the first six fields and sets `remainingEvs` to 508
minus their sum. -/
theorem applyEvs_set (v : String) (t : Team)
    (h1 : v ≠ "EVs not specified in the article" ∧
      v ≠ "EVs not specified in the article (final stat values detected)" ∧
      v ≠ "EVs not specified in the article (invalid EV values detected)")
    (h2 : 6 ≤ (splitWs v.data).length) :
    (applyEvs v t).stats.hp.evs = jsParseIntOr0 ((splitWs v.data).getD 0 "") ∧
    (applyEvs v t).stats.attack.evs = jsParseIntOr0 ((splitWs v.data).getD 1 "") ∧
    (applyEvs v t).stats.defense.evs = jsParseIntOr0 ((splitWs v.data).getD 2 "") ∧
    (applyEvs v t).stats.spAtk.evs = jsParseIntOr0 ((splitWs v.data).getD 3 "") ∧
    (applyEvs v t).stats.spDef.evs = jsParseIntOr0 ((splitWs v.data).getD 4 "") ∧
    (applyEvs v t).stats.speed.evs = jsParseIntOr0 ((splitWs v.data).getD 5 "") ∧
    (applyEvs v t).remainingEvs =
      508 - (jsParseIntOr0 ((splitWs v.data).getD 0 "") +
        jsParseIntOr0 ((splitWs v.data).getD 1 "") +
        jsParseIntOr0 ((splitWs v.data).getD 2 "") +
        jsParseIntOr0 ((splitWs v.data).getD 3 "") +
        jsParseIntOr0 ((splitWs v.data).getD 4 "") +
        jsParseIntOr0 ((splitWs v.data).getD 5 "")) := by
  unfold applyEvs
  rw [if_pos h1]
  dsimp only
  rw [if_pos h2]
  exact ⟨rfl, rfl, rfl, rfl, rfl, rfl, rfl⟩

/-- Claim C10: every team record returned by `parseGeminiResponse` satisfies
`remainingEvs = 508 - (sum of the six per-stat EVs)`; when the validated
spread is one of the three sentinels or splits into fewer than six fields,
all six per-stat EVs are 0 and `remainingEvs` is 508; otherwise the six
fields are the `parseInt`-values (with `|| 0`) of the first six
whitespace-separated fields and `remainingEvs` is 508 minus their sum. -/
theorem C10_remaining_evs_invariant :
    (∀ (text : String), ∀ t ∈ parseGeminiTeams text,
      t.remainingEvs = 508 - (t.stats.hp.evs + t.stats.attack.evs +
        t.stats.defense.evs + t.stats.spAtk.evs + t.stats.spDef.evs +
        t.stats.speed.evs)) ∧
    (∀ s : List Char,
      ((validateAndFixEVSpread (rawEVSpreadOf s) = "EVs not specified in the article" ∨
        validateAndFixEVSpread (rawEVSpreadOf s) =
          "EVs not specified in the article (final stat values detected)" ∨
        validateAndFixEVSpread (rawEVSpreadOf s) =
          "EVs not specified in the article (invalid EV values detected)" ∨
        (splitWs (validateAndFixEVSpread (rawEVSpreadOf s)).data).length < 6) →
        (parseTeamSection s).stats.hp.evs = 0 ∧
        (parseTeamSection s).stats.attack.evs = 0 ∧
        (parseTeamSection s).stats.defense.evs = 0 ∧
        (parseTeamSection s).stats.spAtk.evs = 0 ∧
        (parseTeamSection s).stats.spDef.evs = 0 ∧
        (parseTeamSection s).stats.speed.evs = 0 ∧
        (parseTeamSection s).remainingEvs = 508) ∧
      ((validateAndFixEVSpread (rawEVSpreadOf s) ≠ "EVs not specified in the article" ∧
        validateAndFixEVSpread (rawEVSpreadOf s) ≠
          "EVs not specified in the article (final stat values detected)" ∧
        validateAndFixEVSpread (rawEVSpreadOf s) ≠
          "EVs not specified in the article (invalid EV values detected)" ∧
        6 ≤ (splitWs (validateAndFixEVSpread (rawEVSpreadOf s)).data).length) →
        ((parseTeamSection s).stats.hp.evs =
          jsParseIntOr0 ((splitWs (validateAndFixEVSpread (rawEVSpreadOf s)).data).getD 0 "") ∧
        (parseTeamSection s).stats.attack.evs =
          jsParseIntOr0 ((splitWs (validateAndFixEVSpread (rawEVSpreadOf s)).data).getD 1 "") ∧
        (parseTeamSection s).stats.defense.evs =
          jsParseIntOr0 ((splitWs (validateAndFixEVSpread (rawEVSpreadOf s)).data).getD 2 "") ∧
        (parseTeamSection s).stats.spAtk.evs =
          jsParseIntOr0 ((splitWs (validateAndFixEVSpread (rawEVSpreadOf s)).data).getD 3 "") ∧
        (parseTeamSection s).stats.spDef.evs =
          jsParseIntOr0 ((splitWs (validateAndFixEVSpread (rawEVSpreadOf s)).data).getD 4 "") ∧
        (parseTeamSection s).stats.speed.evs =
          jsParseIntOr0 ((splitWs (validateAndFixEVSpread (rawEVSpreadOf s)).data).getD 5 "") ∧
        (parseTeamSection s).remainingEvs =
          508 - ((parseTeamSection s).stats.hp.evs + (parseTeamSection s).stats.attack.evs +
            (parseTeamSection s).stats.defense.evs + (parseTeamSection s).stats.spAtk.evs +
            (parseTeamSection s).stats.spDef.evs + (parseTeamSection s).stats.speed.evs)))) := by
  have hdich : ∀ s : List Char,
      (parseTeamSection s).remainingEvs = 508 - ((parseTeamSection s).stats.hp.evs +
        (parseTeamSection s).stats.attack.evs + (parseTeamSection s).stats.defense.evs +
        (parseTeamSection s).stats.spAtk.evs + (parseTeamSection s).stats.spDef.evs +
        (parseTeamSection s).stats.speed.evs) := by
    intro s
    by_cases hC : validateAndFixEVSpread (rawEVSpreadOf s) ≠ "EVs not specified in the article" ∧
        validateAndFixEVSpread (rawEVSpreadOf s) ≠
          "EVs not specified in the article (final stat values detected)" ∧
        validateAndFixEVSpread (rawEVSpreadOf s) ≠
          "EVs not specified in the article (invalid EV values detected)"
    · by_cases hL : 6 ≤ (splitWs (validateAndFixEVSpread (rawEVSpreadOf s)).data).length
      · obtain ⟨e0, e1, e2, e3, e4, e5, er⟩ :=
          applyEvs_set (validateAndFixEVSpread (rawEVSpreadOf s)) (baseTeam s) hC hL
        simp only [parseTeamSection]
        rw [er, e0, e1, e2, e3, e4, e5]
      · obtain ⟨hs, hr⟩ :=
          applyEvs_keep (validateAndFixEVSpread (rawEVSpreadOf s)) (baseTeam s)
            (Or.inr (by omega))
        simp only [parseTeamSection]
        rw [hr, hs]
        norm_num [baseTeam]
    · obtain ⟨hs, hr⟩ :=
        applyEvs_keep (validateAndFixEVSpread (rawEVSpreadOf s)) (baseTeam s) (Or.inl hC)
      simp only [parseTeamSection]
      rw [hr, hs]
      norm_num [baseTeam]
  refine ⟨?_, ?_⟩
  · intro text t ht
    rw [parseGeminiTeams_eq_map] at ht
    obtain ⟨s, -, rfl⟩ := List.mem_map.mp ht
    exact hdich s
  · intro s
    constructor
    · intro h
      have hkeep : ¬(validateAndFixEVSpread (rawEVSpreadOf s) ≠ "EVs not specified in the article" ∧
          validateAndFixEVSpread (rawEVSpreadOf s) ≠
            "EVs not specified in the article (final stat values detected)" ∧
          validateAndFixEVSpread (rawEVSpreadOf s) ≠
            "EVs not specified in the article (invalid EV values detected)") ∨
          (splitWs (validateAndFixEVSpread (rawEVSpreadOf s)).data).length < 6 := by
        rcases h with h | h | h | h
        · exact Or.inl (by tauto)
        · exact Or.inl (by tauto)
        · exact Or.inl (by tauto)
        · exact Or.inr h
      obtain ⟨hs, hr⟩ :=
        applyEvs_keep (validateAndFixEVSpread (rawEVSpreadOf s)) (baseTeam s) hkeep
      simp only [parseTeamSection]
      rw [hs, hr]
      exact ⟨rfl, rfl, rfl, rfl, rfl, rfl, rfl⟩
    · intro ⟨h1, h2, h3, hL⟩
      obtain ⟨e0, e1, e2, e3, e4, e5, er⟩ :=
        applyEvs_set (validateAndFixEVSpread (rawEVSpreadOf s)) (baseTeam s) ⟨h1, h2, h3⟩ hL
      simp only [parseTeamSection]
      exact ⟨e0, e1, e2, e3, e4, e5, by rw [er, e0, e1, e2, e3, e4, e5]⟩

set_option maxRecDepth 16384 in
/-- Witness for C10 at a concrete parsed team with a valid spread. -/
theorem C10_remaining_evs_invariant_witness :
    parseTeamSection " [A]\n- EV Spread: 96 0 4 92 0 0\n".data
      ∈ parseGeminiTeams "x\n**Pokémon 1: [A]\n- EV Spread: 96 0 4 92 0 0\n" ∧
    (parseTeamSection " [A]\n- EV Spread: 96 0 4 92 0 0\n".data).remainingEvs =
      508 - ((parseTeamSection " [A]\n- EV Spread: 96 0 4 92 0 0\n".data).stats.hp.evs +
        (parseTeamSection " [A]\n- EV Spread: 96 0 4 92 0 0\n".data).stats.attack.evs +
        (parseTeamSection " [A]\n- EV Spread: 96 0 4 92 0 0\n".data).stats.defense.evs +
        (parseTeamSection " [A]\n- EV Spread: 96 0 4 92 0 0\n".data).stats.spAtk.evs +
        (parseTeamSection " [A]\n- EV Spread: 96 0 4 92 0 0\n".data).stats.spDef.evs +
        (parseTeamSection " [A]\n- EV Spread: 96 0 4 92 0 0\n".data).stats.speed.evs) :=
  ⟨by decide,
    C10_remaining_evs_invariant.1 "x\n**Pokémon 1: [A]\n- EV Spread: 96 0 4 92 0 0\n"
      (parseTeamSection " [A]\n- EV Spread: 96 0 4 92 0 0\n".data) (by decide)⟩

/-! ## Lemmas about the translation cache -/

/-- `Map.set` then `Map.get` of the same key yields the new entry. -/
theorem cacheFind_set_self {α : Type} (k : String) (e : CacheEntry α) :
    ∀ m : CacheMap α, cacheFind k (cacheSet k e m) = some e := by
  intro m
  induction m with
  | nil => simp [cacheSet, cacheFind]
  | cons p rest ih =>
    by_cases h : p.1 = k
    · simp [cacheSet, cacheFind, h]
    · simpa [cacheSet, cacheFind, h] using ih

/-- `Map.set` leaves other keys untouched. -/
theorem cacheFind_set_ne {α : Type} {k k' : String} (h : k' ≠ k)
    (e : CacheEntry α) :
    ∀ m : CacheMap α, cacheFind k' (cacheSet k e m) = cacheFind k' m := by
  intro m
  have h' : ¬(k = k') := fun hh => h hh.symm
  induction m with
  | nil => simp [cacheSet, cacheFind, h']
  | cons p rest ih =>
    by_cases hp : p.1 = k
    · subst hp
      simp [cacheSet, cacheFind, h']
    · simp [cacheSet, cacheFind, hp, ih]

/-- A key that is not among the stored keys is not found. -/
theorem cacheFind_not_mem {α : Type} {k : String} :
    ∀ {m : CacheMap α}, k ∉ m.map Prod.fst → cacheFind k m = none := by
  intro m
  induction m with
  | nil => intro _; rfl
  | cons p rest ih =>
    intro h
    simp only [List.map_cons, List.mem_cons] at h
    push_neg at h
    have h' : ¬(p.1 = k) := fun hh => h.1 hh.symm
    simp [cacheFind, h', ih h.2]

/-- With unique keys (the JS `Map` invariant), `Map.delete` removes the key. -/
theorem cacheFind_delete_self {α : Type} {k : String} :
    ∀ {m : CacheMap α}, (m.map Prod.fst).Nodup →
      cacheFind k (cacheDelete k m) = none := by
  intro m
  induction m with
  | nil => intro _; rfl
  | cons p rest ih =>
    intro hnd
    simp only [List.map_cons, List.nodup_cons] at hnd
    by_cases h : p.1 = k
    · subst h
      simpa [cacheDelete] using cacheFind_not_mem hnd.1
    · simp [cacheDelete, cacheFind, h, ih hnd.2]

/-- `Map.delete` leaves other keys untouched. -/
theorem cacheFind_delete_ne {α : Type} {k k' : String} (h : k' ≠ k) :
    ∀ m : CacheMap α, cacheFind k' (cacheDelete k m) = cacheFind k' m := by
  intro m
  induction m with
  | nil => rfl
  | cons p rest ih =>
    by_cases hp : p.1 = k
    · subst hp
      have h' : ¬(p.1 = k') := fun hh => h hh.symm
      simp [cacheDelete, cacheFind, h', ih]
    · simp [cacheDelete, cacheFind, hp, ih]

/-- The keys after `Map.set` are the new key plus the old keys. -/
theorem cacheSet_keys {α : Type} (k : String) (e : CacheEntry α) :
    ∀ (m : CacheMap α) (k' : String),
      k' ∈ (cacheSet k e m).map Prod.fst ↔ k' = k ∨ k' ∈ m.map Prod.fst := by
  intro m
  induction m with
  | nil => intro k'; simp [cacheSet]
  | cons p rest ih =>
    intro k'
    by_cases h : p.1 = k
    · subst h
      simp [cacheSet]
    · simp only [cacheSet, if_neg h, List.map_cons, List.mem_cons, ih]
      tauto

/-- `Map.set` preserves key uniqueness. -/
theorem cacheSet_nodup {α : Type} (k : String) (e : CacheEntry α) :
    ∀ {m : CacheMap α}, (m.map Prod.fst).Nodup →
      ((cacheSet k e m).map Prod.fst).Nodup := by
  intro m
  induction m with
  | nil => intro _; simp [cacheSet]
  | cons p rest ih =>
    intro hnd
    simp only [List.map_cons, List.nodup_cons] at hnd
    by_cases h : p.1 = k
    · subst h
      simpa [cacheSet] using hnd
    · simp only [cacheSet, if_neg h, List.map_cons, List.nodup_cons]
      refine ⟨?_, ih hnd.2⟩
      rw [cacheSet_keys]
      push_neg
      exact ⟨h, hnd.1⟩

/-- Claim C4: `setCachedTranslation` followed by `getCachedTranslation` on
the same URL returns the stored value while the age is below the 24-hour
`CACHE_DURATION`; once the age reaches it, the lookup returns nothing and
deletes the stale entry at that lookup; the lookup never touches any other
key (eviction is lazy, never proactive); and `set` overwrites any prior
entry under the same key.  `keyFn` abstracts the md5 key derivation; the
`Nodup` hypothesis is the key-uniqueness invariant of the JS `Map`. -/
theorem C4_cache_roundtrip {α : Type} (keyFn : String → String)
    (cache : CacheMap α) (t₀ now : Int) (url : String) (d : α)
    (hnd : (cache.map Prod.fst).Nodup) :
    cacheFind (keyFn url) (setCachedTranslation keyFn t₀ cache url d) =
      some { data := d, timestamp := t₀ } ∧
    (now - t₀ < CACHE_DURATION →
      getCachedTranslation keyFn now (setCachedTranslation keyFn t₀ cache url d) url =
        (some d, setCachedTranslation keyFn t₀ cache url d)) ∧
    (CACHE_DURATION ≤ now - t₀ →
      (getCachedTranslation keyFn now (setCachedTranslation keyFn t₀ cache url d) url).1 =
        none ∧
      cacheFind (keyFn url)
        (getCachedTranslation keyFn now (setCachedTranslation keyFn t₀ cache url d) url).2 =
        none) ∧
    (∀ k', k' ≠ keyFn url →
      cacheFind k'
        (getCachedTranslation keyFn now (setCachedTranslation keyFn t₀ cache url d) url).2 =
      cacheFind k' (setCachedTranslation keyFn t₀ cache url d)) := by
  have hfind : cacheFind (keyFn url) (setCachedTranslation keyFn t₀ cache url d) =
      some { data := d, timestamp := t₀ } := cacheFind_set_self _ _ _
  refine ⟨hfind, ?_, ?_, ?_⟩
  · intro hfresh
    simp [getCachedTranslation, hfind, hfresh]
  · intro hstale
    have hcond : ¬(now - t₀ < CACHE_DURATION) := by omega
    constructor
    · simp [getCachedTranslation, hfind, hcond]
    · simp only [getCachedTranslation, hfind, hcond, if_false]
      exact cacheFind_delete_self (cacheSet_nodup _ _ hnd)
  · intro k' hk
    by_cases hfresh : now - t₀ < CACHE_DURATION
    · simp [getCachedTranslation, hfind, hfresh]
    · simp only [getCachedTranslation, hfind, hfresh, if_false]
      exact cacheFind_delete_ne hk _

/-- Witness for C4: a fresh hit returns the stored value; at exactly the
TTL the entry is gone. -/
theorem C4_cache_roundtrip_witness :
    getCachedTranslation (fun u => u) 5
      (setCachedTranslation (fun u => u) 0 ([] : CacheMap Nat) "https://a.example/x" 42)
      "https://a.example/x" =
      (some 42,
        setCachedTranslation (fun u => u) 0 ([] : CacheMap Nat) "https://a.example/x" 42) ∧
    (getCachedTranslation (fun u => u) 86400000
      (setCachedTranslation (fun u => u) 0 ([] : CacheMap Nat) "https://a.example/x" 42)
      "https://a.example/x").1 = none :=
  ⟨(C4_cache_roundtrip (fun u => u) [] 0 5 "https://a.example/x" 42 (by simp)).2.1
      (by norm_num [CACHE_DURATION]),
    ((C4_cache_roundtrip (fun u => u) [] 0 86400000 "https://a.example/x" 42
      (by simp)).2.2.1 (by norm_num [CACHE_DURATION])).1⟩

/-! ## Lemmas about the retry loop -/

/-- The number of attempts made is bounded by the fuel. -/
theorem summarizeLoopF_len {α : Type} (calls : Nat → Except String α) :
    ∀ (fuel attempt : Nat), (summarizeLoopF calls attempt fuel).2.1.length ≤ fuel := by
  intro fuel
  induction fuel with
  | zero => intro attempt; simp [summarizeLoopF]
  | succ f ih =>
    intro attempt
    simp only [summarizeLoopF]
    match calls attempt with
    | .ok a => simp
    | .error e =>
      by_cases h : attempt < 3 ∧ isRetryableError e = true
      · simp only [if_pos h, List.length_cons]
        have := ih (attempt + 1)
        omega
      · simp [if_neg h]

/-- With nonzero fuel, at least one attempt is made. -/
theorem summarizeLoopF_ne_nil {α : Type} (calls : Nat → Except String α)
    (fuel attempt : Nat) (hf : 1 ≤ fuel) :
    (summarizeLoopF calls attempt fuel).2.1 ≠ [] := by
  match fuel, hf with
  | f + 1, _ =>
    simp only [summarizeLoopF]
    match calls attempt with
    | .ok a => simp
    | .error e =>
      by_cases h : attempt < 3 ∧ isRetryableError e = true
      · simp [if_pos h]
      · simp [if_neg h]

/-- The recorded backoff delays are exactly
`min(1000 * 2^(attempt-1), 5000)` for every attempt that was retried (all
but the last attempt). -/
theorem summarizeLoopF_delays {α : Type} (calls : Nat → Except String α) :
    ∀ (fuel attempt : Nat), 3 - attempt < fuel →
    (summarizeLoopF calls attempt fuel).2.2 =
      ((summarizeLoopF calls attempt fuel).2.1.dropLast).map
        (fun a => min (1000 * 2 ^ (a - 1)) 5000) := by
  intro fuel
  induction fuel with
  | zero => intro attempt h; omega
  | succ f ih =>
    intro attempt hfa
    simp only [summarizeLoopF]
    match calls attempt with
    | .ok a => simp
    | .error e =>
      by_cases h : attempt < 3 ∧ isRetryableError e = true
      · simp only [if_pos h]
        have hrec := ih (attempt + 1) (by omega)
        have hne := summarizeLoopF_ne_nil calls f (attempt + 1) (by omega)
        rcases htr : (summarizeLoopF calls (attempt + 1) f).2.1 with _ | ⟨x, xs⟩
        · exact absurd htr hne
        · rw [htr] at hrec
          simp only [List.dropLast_cons₂, List.map_cons] at hrec ⊢
          simp [hrec, htr]
      · simp [if_neg h]

/-- Claim C7: the completion client makes at most 3 attempts; a
non-retryable failure at any attempt is returned immediately (mapped
through `getErrorMessage`) with no further attempts; the backoff delay for each retried attempt is
`min(1000 * 2^(attempt-1), 5000)` (doubling, capped); and two retryable
`HTTP 503` failures followed by a success yield a successful outcome with
no error surfaced, after attempts 1, 2, 3 with delays 1000 and 2000 ms. -/
theorem C7_retry_policy (α : Type) :
    (∀ calls : Nat → Except String α,
      (summarizeArticleLoopStart calls).2.1.length ≤ 3) ∧
    (∀ (calls : Nat → Except String α) (e : String) (attempt fuel : Nat),
      1 ≤ fuel → calls attempt = .error e → isRetryableError e = false →
      summarizeLoopF calls attempt fuel =
        (⟨false, none, some (getErrorMessage e)⟩, [attempt], [])) ∧
    (∀ calls : Nat → Except String α,
      (summarizeArticleLoopStart calls).2.2 =
        ((summarizeArticleLoopStart calls).2.1.dropLast).map
          (fun a => min (1000 * 2 ^ (a - 1)) 5000)) ∧
    (∀ (calls : Nat → Except String α) (a : α) (e₁ e₂ : String),
      calls 1 = .error e₁ → calls 2 = .error e₂ → calls 3 = .ok a →
      isRetryableError e₁ = true → isRetryableError e₂ = true →
      summarizeArticleLoopStart calls =
        (⟨true, some a, none⟩, [1, 2, 3], [1000, 2000])) := by
  refine ⟨?_, ?_, ?_, ?_⟩
  · intro calls
    exact summarizeLoopF_len calls 3 1
  · intro calls e attempt fuel hf hcall hret
    match fuel, hf with
    | f + 1, _ => simp [summarizeLoopF, hcall, hret]
  · intro calls
    exact summarizeLoopF_delays calls 3 1 (by omega)
  · intro calls a e₁ e₂ h1 h2 h3 hr1 hr2
    simp only [summarizeArticleLoopStart, summarizeLoopF, h1, h2, h3, hr1, hr2,
      and_true]
    norm_num

/-- Witness for C7 on a call sequence that fails twice with `HTTP 503` and
succeeds on the third attempt. -/
theorem C7_retry_policy_witness :
    ((fun n => if n ≤ 2 then Except.error "HTTP 503" else Except.ok (42 : Nat)) 1 =
      Except.error "HTTP 503") ∧
    isRetryableError "HTTP 503" = true ∧
    summarizeArticleLoopStart
        (fun n => if n ≤ 2 then Except.error "HTTP 503" else Except.ok (42 : Nat)) =
      (⟨true, some 42, none⟩, [1, 2, 3], [1000, 2000]) :=
  ⟨rfl, by decide,
    (C7_retry_policy Nat).2.2.2
      (fun n => if n ≤ 2 then Except.error "HTTP 503" else Except.ok (42 : Nat))
      42 "HTTP 503" "HTTP 503" rfl rfl rfl (by decide) (by decide)⟩

/-- Claim C8, counterexample to "names the failing URL": the fetch-error
response surfaced by `/api/summarize` is built only from the underlying
error message (`'Failed to process article: ' + 'Failed to fetch article: '
+ message`); for the axios-style message of an HTTP 500 it does not contain
the URL, though the completion service is indeed invoked zero times. -/
theorem C8_fetch_error_counterexample :
    (apiSummarize (fun u => u) 0 ([] : CacheMap Nat) "https://example.com/article" true
        (Except.error "Request failed with status code 500") (Except.ok "")
        (fun _ => 0)).1 =
      ⟨500,
        some "Failed to process article: Failed to fetch article: Request failed with status code 500",
        0, none⟩ ∧
    containsSeq "https://example.com/article".data
      "Failed to process article: Failed to fetch article: Request failed with status code 500".data =
      false := by
  constructor
  · decide
  · decide

/-- Claim C8 as amended: when the article fetch fails (on its single
attempt) and the URL is not cached, `/api/summarize` responds with status
500 and the error message `Failed to process article: Failed to fetch
article: <underlying message>` — which contains the URL only if the
underlying message does — and the completion service is invoked zero
times. -/
theorem C8_fetch_error_aborts (α : Type) (keyFn : String → String) (now : Int)
    (cache : CacheMap α) (url : String) (msg : String)
    (gemini : Except String String) (parse : String → α)
    (hurl : url ≠ "")
    (hmiss : (getCachedTranslation keyFn now cache url).1 = none) :
    apiSummarize keyFn now cache url true (Except.error msg) gemini parse =
      (⟨500,
        some ("Failed to process article: " ++ ("Failed to fetch article: " ++ msg)),
        0, none⟩,
        (getCachedTranslation keyFn now cache url).2) := by
  unfold apiSummarize
  rw [if_neg hurl]
  rcases hg : getCachedTranslation keyFn now cache url with ⟨o, c'⟩
  rw [hg] at hmiss
  simp only at hmiss
  subst hmiss
  simp [extractArticleText]

/-- Witness for the amended C8 at a concrete fetch failure. -/
theorem C8_fetch_error_aborts_witness :
    ("https://example.com/article" : String) ≠ "" ∧
    (getCachedTranslation (fun u => u) 0 ([] : CacheMap Nat)
      "https://example.com/article").1 = none ∧
    apiSummarize (fun u => u) 0 ([] : CacheMap Nat) "https://example.com/article" true
        (Except.error "Request failed with status code 500") (Except.ok "")
        (fun _ => 0) =
      (⟨500,
        some ("Failed to process article: " ++
          ("Failed to fetch article: " ++ "Request failed with status code 500")),
        0, none⟩,
        (getCachedTranslation (fun u => u) 0 ([] : CacheMap Nat)
          "https://example.com/article").2) :=
  ⟨by decide, rfl,
    C8_fetch_error_aborts Nat (fun u => u) 0 [] "https://example.com/article"
      "Request failed with status code 500" (Except.ok "") (fun _ => 0)
      (by decide) rfl⟩
